import Mathlib

/-!
Shallow embedding of the `raytracer` repository's rendering core
(`src/math.rs`, `src/hittable.rs`, `src/sphere.rs`, `src/plane.rs`,
`src/cube.rs`, `src/cylinder.rs`, `src/main.rs`).  `f64` values are
modelled as real numbers; the value `f64::INFINITY`, which `ray_color`
passes as an upper interval bound, is modelled by `⊤ : WithTop ℝ`, so
every `t_max`-typed quantity lives in `WithTop ℝ` while finite scalars
stay in `ℝ`.
-/

noncomputable section

namespace Raytracer

/-- Component vector of three floats (`Vec3` in `src/math.rs`). -/
structure Vec3 where
  x : ℝ
  y : ℝ
  z : ℝ

instance : Add Vec3 := ⟨fun a b => ⟨a.x + b.x, a.y + b.y, a.z + b.z⟩⟩

instance : Sub Vec3 := ⟨fun a b => ⟨a.x - b.x, a.y - b.y, a.z - b.z⟩⟩

instance : Neg Vec3 := ⟨fun a => ⟨-a.x, -a.y, -a.z⟩⟩

/-- Scalar multiplication `impl Mul<f64> for Vec3`. -/
instance : HMul Vec3 ℝ Vec3 := ⟨fun a t => ⟨a.x * t, a.y * t, a.z * t⟩⟩

/-- Componentwise multiplication `impl Mul<Vec3> for Vec3`. -/
instance : HMul Vec3 Vec3 Vec3 := ⟨fun a b => ⟨a.x * b.x, a.y * b.y, a.z * b.z⟩⟩

/-- Scalar division `impl Div<f64> for Vec3`. -/
instance : HDiv Vec3 ℝ Vec3 := ⟨fun a t => ⟨a.x / t, a.y / t, a.z / t⟩⟩

def Vec3.dot (a b : Vec3) : ℝ := a.x * b.x + a.y * b.y + a.z * b.z

def Vec3.cross (a b : Vec3) : Vec3 :=
  ⟨a.y * b.z - a.z * b.y, a.z * b.x - a.x * b.z, a.x * b.y - a.y * b.x⟩

def Vec3.lengthSquared (v : Vec3) : ℝ := v.x * v.x + v.y * v.y + v.z * v.z

def Vec3.length (v : Vec3) : ℝ := Real.sqrt v.lengthSquared

/-- `Vec3::unit` from `src/math.rs`: the zero-length case returns the
vector unchanged instead of dividing by zero. -/
def Vec3.unit (v : Vec3) : Vec3 :=
  if v.length = 0 then v else v / v.length

/-- Modelled from the spec: the crate declares `mod ray;` but `ray.rs` is
not among the provided source files.  The spec defines a Ray as an origin
plus a direction with point-at-parameter `at(t) = origin + direction * t`. -/
structure Ray where
  origin : Vec3
  direction : Vec3

/-- Modelled from the spec: `at(t) = origin + direction * t`. -/
def Ray.at (r : Ray) (t : ℝ) : Vec3 := r.origin + r.direction * t

/-- Modelled from the spec: `main.rs` imports `math::reflect` but the
provided `math.rs` does not contain it; the spec describes it as the
mirror reflection of the incoming direction about the surface normal,
`v - n * (2 * dot(v, n))`. -/
def reflect (v n : Vec3) : Vec3 := v - n * (2 * Vec3.dot v n)

/-- `HitRecord` from `src/hittable.rs`. -/
structure HitRecord where
  p : Vec3
  normal : Vec3
  t : ℝ
  albedo : Vec3
  reflectivity : ℝ

/-- `HitRecord::with_face_normal`: orient the stored normal against the
incoming ray direction. -/
def HitRecord.withFaceNormal (r : Ray) (p : Vec3) (outwardNormal : Vec3)
    (t : ℝ) (albedo : Vec3) (reflectivity : ℝ) : HitRecord :=
  let front := Vec3.dot r.direction outwardNormal < 0
  let normal := if front then outwardNormal else -outwardNormal
  ⟨p, normal, t, albedo, reflectivity⟩

/-- `Sphere` from `src/sphere.rs`. -/
structure Sphere where
  center : Vec3
  radius : ℝ
  albedo : Vec3
  reflectivity : ℝ

/-- The record `Sphere::hit` builds for an accepted root. -/
def Sphere.record (s : Sphere) (r : Ray) (root : ℝ) : HitRecord :=
  let p := r.at root
  HitRecord.withFaceNormal r p ((p - s.center) / s.radius) root s.albedo s.reflectivity

/-- `Sphere::hit` from `src/sphere.rs`: solve the half-b quadratic, try the
near root, fall back to the far root. -/
def Sphere.hit (s : Sphere) (r : Ray) (tMin : ℝ) (tMax : WithTop ℝ) :
    Option HitRecord :=
  let oc := r.origin - s.center
  let a := Vec3.dot r.direction r.direction
  let halfB := Vec3.dot oc r.direction
  let c := Vec3.dot oc oc - s.radius * s.radius
  let discriminant := halfB * halfB - a * c
  if discriminant < 0 then none
  else
    let sqrtD := Real.sqrt discriminant
    let root1 := (-halfB - sqrtD) / a
    if root1 < tMin ∨ ((root1 : WithTop ℝ) > tMax) then
      let root2 := (-halfB + sqrtD) / a
      if root2 < tMin ∨ ((root2 : WithTop ℝ) > tMax) then none
      else some (s.record r root2)
    else some (s.record r root1)

/-- Modelled from the spec: the provided `src/plane.rs` is a stale draft —
`main.rs` constructs every `Plane` with a fourth `reflectivity` argument
and the spec gives every primitive `albedo` and `reflectivity`, while the
draft lacks the field (its `with_face_normal` call would not even compile
against `src/hittable.rs`).  The geometry below is exactly the draft's;
only the `reflectivity` field threaded through to the hit record is
modelled from the spec. -/
structure Plane where
  point : Vec3
  normal : Vec3
  albedo : Vec3
  reflectivity : ℝ

/-- `Plane::hit` from `src/plane.rs`: reject a near-parallel denominator,
then a single ray-plane root. -/
def Plane.hit (pl : Plane) (r : Ray) (tMin : ℝ) (tMax : WithTop ℝ) :
    Option HitRecord :=
  let denom := Vec3.dot r.direction pl.normal
  if |denom| < 1e-6 then none
  else
    let t := Vec3.dot (pl.point - r.origin) pl.normal / denom
    if t < tMin ∨ ((t : WithTop ℝ) > tMax) then none
    else some (HitRecord.withFaceNormal r (r.at t) pl.normal t pl.albedo pl.reflectivity)

/-- `Aabb` from `src/cube.rs`. -/
structure Aabb where
  min : Vec3
  max : Vec3

/-- One axis of `Aabb::hit`'s slab loop, acting on the running
`(t_min, t_max, face_normal)` state.  The unused `normal_pos`
(`_exit_normal` in the source) is omitted. -/
def slabAxis (origin dir minb maxb : ℝ) (normalNeg : Vec3)
    (st : ℝ × WithTop ℝ × Vec3) : Option (ℝ × WithTop ℝ × Vec3) :=
  if |dir| < 1e-12 then
    if origin < minb ∨ origin > maxb then none else some st
  else
    let inv := 1 / dir
    let t0 := (minb - origin) * inv
    let t1 := (maxb - origin) * inv
    let sw := if t0 > t1 then (t1, t0, -normalNeg) else (t0, t1, normalNeg)
    let tmn := if sw.1 > st.1 then sw.1 else st.1
    let fn := if sw.1 > st.1 then sw.2.2 else st.2.2
    let tmx := if ((sw.2.1 : WithTop ℝ) < st.2.1) then (sw.2.1 : WithTop ℝ) else st.2.1
    if tmx ≤ (tmn : WithTop ℝ) then none else some (tmn, tmx, fn)

/-- Core of one slab axis once the near-parallel case is excluded and the
swap of `(t0, t1)` is resolved into the sorted pair `(a, b)` with entry
normal `en`: narrow the running interval and test it for emptiness. -/
def slabCore (tmin : ℝ) (a b : ℝ) (en fn : Vec3) (hi : WithTop ℝ) :
    Option (ℝ × WithTop ℝ × Vec3) :=
  let tmn := if a > tmin then a else tmin
  let fnv := if a > tmin then en else fn
  let tmx := if ((b : WithTop ℝ) < hi) then (b : WithTop ℝ) else hi
  if tmx ≤ (tmn : WithTop ℝ) then none else some (tmn, tmx, fnv)

/-- `Aabb::hit` from `src/cube.rs`: the three-axis slab test, returning the
entry distance and entered face normal. -/
def Aabb.hit (bb : Aabb) (r : Ray) (tMin : ℝ) (tMax : WithTop ℝ) :
    Option (ℝ × Vec3) :=
  let s0 : ℝ × WithTop ℝ × Vec3 := (tMin, tMax, ⟨0, 0, 0⟩)
  match slabAxis r.origin.x r.direction.x bb.min.x bb.max.x ⟨-1, 0, 0⟩ s0 with
  | none => none
  | some s1 =>
    match slabAxis r.origin.y r.direction.y bb.min.y bb.max.y ⟨0, -1, 0⟩ s1 with
    | none => none
    | some s2 =>
      match slabAxis r.origin.z r.direction.z bb.min.z bb.max.z ⟨0, 0, -1⟩ s2 with
      | none => none
      | some s3 => some (s3.1, s3.2.2)

/-- `Cube` from `src/cube.rs`. -/
structure Cube where
  bounds : Aabb
  albedo : Vec3
  reflectivity : ℝ

/-- `Cube::from_center_size`. -/
def Cube.fromCenterSize (center : Vec3) (size : ℝ) (albedo : Vec3)
    (reflectivity : ℝ) : Cube :=
  let h := size * 0.5
  ⟨⟨⟨center.x - h, center.y - h, center.z - h⟩,
    ⟨center.x + h, center.y + h, center.z + h⟩⟩, albedo, reflectivity⟩

/-- `Cube::hit` (the `Hittable` impl in `src/cube.rs`). -/
def Cube.hit (cb : Cube) (r : Ray) (tMin : ℝ) (tMax : WithTop ℝ) :
    Option HitRecord :=
  match cb.bounds.hit r tMin tMax with
  | some tn =>
    some (HitRecord.withFaceNormal r (r.at tn.1) tn.2 tn.1 cb.albedo cb.reflectivity)
  | none => none

/-- `Cylinder` from `src/cylinder.rs`. -/
structure Cylinder where
  center : Vec3
  radius : ℝ
  halfHeight : ℝ
  albedo : Vec3
  reflectivity : ℝ

/-- The record `Cylinder::hit`'s `try_root` closure builds for a side hit. -/
def Cylinder.sideRecord (cy : Cylinder) (r : Ray) (ro rd : Vec3) (t : ℝ) :
    HitRecord :=
  let p := r.at t
  let outward : Vec3 :=
    Vec3.unit ⟨(ro.x + t * rd.x) / cy.radius, 0, (ro.z + t * rd.z) / cy.radius⟩
  HitRecord.withFaceNormal r p outward t cy.albedo cy.reflectivity

/-- The `try_root` closure of `Cylinder::hit`, lambda-lifted over its
captures, acting on the running `(t_hit, hit_rec)` state. -/
def Cylinder.tryRoot (cy : Cylinder) (r : Ray) (ro rd : Vec3) (tMin : ℝ)
    (st : WithTop ℝ × Option HitRecord) (t : ℝ) :
    WithTop ℝ × Option HitRecord :=
  if t ≥ tMin ∧ ((t : WithTop ℝ) ≤ st.1) then
    let y := ro.y + t * rd.y
    if y ≥ -cy.halfHeight - 1e-9 ∧ y ≤ cy.halfHeight + 1e-9 then
      ((t : WithTop ℝ), some (cy.sideRecord r ro rd t))
    else st
  else st

/-- The record `check_cap` builds for a cap hit. -/
def Cylinder.capRecord (cy : Cylinder) (r : Ray) (yCap t : ℝ) : HitRecord :=
  let outward : Vec3 := if yCap > 0 then ⟨0, 1, 0⟩ else ⟨0, -1, 0⟩
  HitRecord.withFaceNormal r (r.at t) outward t cy.albedo cy.reflectivity

/-- The `check_cap` closure of `Cylinder::hit`, lambda-lifted, acting on
the running `(t_hit, hit_rec)` state. -/
def Cylinder.checkCap (cy : Cylinder) (yCap : ℝ) (r : Ray) (ro rd : Vec3)
    (tMin : ℝ) (st : WithTop ℝ × Option HitRecord) :
    WithTop ℝ × Option HitRecord :=
  if |rd.y| < 1e-12 then st
  else
    let t := (yCap - ro.y) / rd.y
    if t < tMin ∨ ((t : WithTop ℝ) > st.1) then st
    else
      let x := ro.x + t * rd.x
      let z := ro.z + t * rd.z
      if x * x + z * z ≤ cy.radius * cy.radius + 1e-9 then
        ((t : WithTop ℝ), some (cy.capRecord r yCap t))
      else st

/-- `Cylinder::hit` from `src/cylinder.rs`: side quadratic (near root then
far root), then top cap, then bottom cap, all narrowing a running `t_hit`. -/
def Cylinder.hit (cy : Cylinder) (r : Ray) (tMin : ℝ) (tMax : WithTop ℝ) :
    Option HitRecord :=
  let ro := r.origin - cy.center
  let rd := r.direction
  let a := rd.x * rd.x + rd.z * rd.z
  let st0 : WithTop ℝ × Option HitRecord := (tMax, none)
  let st1 :=
    if |a| > 1e-12 then
      let b := 2 * (ro.x * rd.x + ro.z * rd.z)
      let c := ro.x * ro.x + ro.z * ro.z - cy.radius * cy.radius
      let disc := b * b - 4 * a * c
      if disc ≥ 0 then
        let sqrtD := Real.sqrt disc
        cy.tryRoot r ro rd tMin
          (cy.tryRoot r ro rd tMin st0 ((-b - sqrtD) / (2 * a)))
          ((-b + sqrtD) / (2 * a))
      else st0
    else st0
  (cy.checkCap (-cy.halfHeight) r ro rd tMin
    (cy.checkCap cy.halfHeight r ro rd tMin st1)).2

/-- Closed tagged variant over the four primitive kinds stored as
`Box<dyn Hittable>` in a `HittableList`. -/
inductive Object where
  | sphere (s : Sphere)
  | plane (p : Plane)
  | cube (c : Cube)
  | cylinder (cy : Cylinder)

/-- Dynamic dispatch of the `Hittable::hit` trait method. -/
def Object.hit : Object → Ray → ℝ → WithTop ℝ → Option HitRecord
  | .sphere s, r, tMin, tMax => s.hit r tMin tMax
  | .plane p, r, tMin, tMax => p.hit r tMin tMax
  | .cube c, r, tMin, tMax => c.hit r tMin tMax
  | .cylinder cy, r, tMin, tMax => cy.hit r tMin tMax

/-- `HittableList::hit` from `src/hittable.rs`: iterate the objects,
narrowing the upper bound to each found hit's `t` and retaining the last
record found. -/
def hittableListHit (objects : List Object) (r : Ray) (tMin : ℝ)
    (tMax : WithTop ℝ) : Option HitRecord :=
  (objects.foldl
    (fun st obj =>
      match obj.hit r tMin st.1 with
      | some rec => ((rec.t : WithTop ℝ), some rec)
      | none => st)
    (tMax, none)).2

/-- `PointLight` from `src/light.rs`. -/
structure PointLight where
  position : Vec3
  intensity : Vec3

/-- `shade_lambert_with_shadow` from `src/main.rs`. -/
def shadeLambertWithShadow (hitColor normal p : Vec3) (light : PointLight)
    (world : List Object) : Vec3 :=
  let ambient : ℝ := 0.12
  let toLightVec := light.position - p
  let lightDist := toLightVec.length
  let toLightDir := toLightVec / lightDist
  let shadowEps : ℝ := 1e-4
  let shadowOrigin := p + normal * shadowEps
  let shadowRay : Ray := ⟨shadowOrigin, toLightDir⟩
  let inShadow := (hittableListHit world shadowRay shadowEps
    ((lightDist - shadowEps : ℝ) : WithTop ℝ)).isSome
  let diffuse := if inShadow then 0 else max 0 (Vec3.dot normal toLightDir)
  let lighting := ambient + diffuse
  (hitColor * lighting) * light.intensity

/-- `ray_color` from `src/main.rs`: depth guard, nearest hit over
`(0.001, ∞)`, local shading, clamped-reflectivity mirror recursion, sky
gradient on a miss.  The `i32` depth is modelled as `ℤ`. -/
def rayColor (r : Ray) (world : List Object) (light : PointLight)
    (depth : ℤ) : Vec3 :=
  if h : depth ≤ 0 then ⟨0, 0, 0⟩
  else
    match hittableListHit world r 0.001 ⊤ with
    | some rec =>
      let localColor := shadeLambertWithShadow rec.albedo rec.normal rec.p light world
      let refl := min (max rec.reflectivity 0) 1
      if refl > 0 then
        let bias : ℝ := 1e-4
        let reflectDir := (reflect r.direction.unit rec.normal).unit
        let reflectRay : Ray := ⟨rec.p + rec.normal * bias, reflectDir⟩
        let reflected := rayColor reflectRay world light (depth - 1)
        localColor * (1 - refl) + reflected * refl
      else localColor
    | none =>
      let unitDir := r.direction.unit
      let t := 0.5 * (unitDir.y + 1)
      (Vec3.mk 1 1 1) * (1 - t) + (Vec3.mk 0.5 0.7 1) * t
termination_by depth.toNat
decreasing_by
  simp only [not_le] at h
  omega

/-- Generic candidate step shared by the proofs about `Sphere::hit`,
`Plane::hit` and `Cylinder::hit`: accept candidate `t` with record `rec`
when the side condition holds and `t` does not exceed the running bound. -/
def candStep (v : Bool) (t : ℝ) (rec : HitRecord)
    (st : WithTop ℝ × Option HitRecord) : WithTop ℝ × Option HitRecord :=
  if v = true ∧ ((t : WithTop ℝ) ≤ st.1) then ((t : WithTop ℝ), some rec) else st

/-- Run a list of candidates through `candStep`. -/
def candRun (cs : List (Bool × ℝ × HitRecord))
    (st : WithTop ℝ × Option HitRecord) : WithTop ℝ × Option HitRecord :=
  cs.foldl (fun st c => candStep c.1 c.2.1 c.2.2 st) st

/-- Invariant of a `(t_hit, hit_rec)` state: the bound equals the initial
`hi` while no record is held, and otherwise equals the held record's `t`,
which lies in `[tMin, hi]`. -/
def StateOk (tMin : ℝ) (hi : WithTop ℝ) (st : WithTop ℝ × Option HitRecord) :
    Prop :=
  (st.2 = none → st.1 = hi) ∧
    ∀ rec, st.2 = some rec →
      st.1 = (rec.t : WithTop ℝ) ∧ tMin ≤ rec.t ∧ (rec.t : WithTop ℝ) ≤ hi

/-- Simulation relation between a run with narrowed bound `hi'` and a run
with a wider bound: either the states agree, or the narrow run still holds
nothing while the wide run's bound sits strictly above `hi'`. -/
def StateRel (hi' : WithTop ℝ) (a b : WithTop ℝ × Option HitRecord) : Prop :=
  a = b ∨ (a = (hi', none) ∧ hi' < b.1)

/-- The two quadratic-root candidates of `Sphere::hit`, with their
acceptance conditions that do not mention the running upper bound. -/
def Sphere.cands (s : Sphere) (r : Ray) (tMin : ℝ) :
    List (Bool × ℝ × HitRecord) :=
  let oc := r.origin - s.center
  let a := Vec3.dot r.direction r.direction
  let halfB := Vec3.dot oc r.direction
  let c := Vec3.dot oc oc - s.radius * s.radius
  let discriminant := halfB * halfB - a * c
  let sqrtD := Real.sqrt discriminant
  let root1 := (-halfB - sqrtD) / a
  let root2 := (-halfB + sqrtD) / a
  [(decide (0 ≤ discriminant ∧ tMin ≤ root1), root1, s.record r root1),
   (decide (0 ≤ discriminant ∧ tMin ≤ root2), root2, s.record r root2)]

/-- The single root candidate of `Plane::hit`. -/
def Plane.cands (pl : Plane) (r : Ray) (tMin : ℝ) :
    List (Bool × ℝ × HitRecord) :=
  let denom := Vec3.dot r.direction pl.normal
  let t := Vec3.dot (pl.point - r.origin) pl.normal / denom
  [(decide (¬|denom| < 1e-6 ∧ tMin ≤ t),
    t,
    HitRecord.withFaceNormal r (r.at t) pl.normal t pl.albedo pl.reflectivity)]

/-- The four candidates of `Cylinder::hit`: both side roots, then the top
cap, then the bottom cap. -/
def Cylinder.cands (cy : Cylinder) (r : Ray) (tMin : ℝ) :
    List (Bool × ℝ × HitRecord) :=
  let ro := r.origin - cy.center
  let rd := r.direction
  let a := rd.x * rd.x + rd.z * rd.z
  let b := 2 * (ro.x * rd.x + ro.z * rd.z)
  let c := ro.x * ro.x + ro.z * ro.z - cy.radius * cy.radius
  let disc := b * b - 4 * a * c
  let sqrtD := Real.sqrt disc
  let t1 := (-b - sqrtD) / (2 * a)
  let t2 := (-b + sqrtD) / (2 * a)
  let side : ℝ → Bool := fun t =>
    decide (|a| > 1e-12 ∧ disc ≥ 0 ∧ t ≥ tMin ∧
      ro.y + t * rd.y ≥ -cy.halfHeight - 1e-9 ∧
      ro.y + t * rd.y ≤ cy.halfHeight + 1e-9)
  let cap : ℝ → ℝ → Bool := fun yCap t =>
    decide (¬|rd.y| < 1e-12 ∧ ¬t < tMin ∧
      (ro.x + t * rd.x) * (ro.x + t * rd.x) +
        (ro.z + t * rd.z) * (ro.z + t * rd.z) ≤ cy.radius * cy.radius + 1e-9)
  let tTop := (cy.halfHeight - ro.y) / rd.y
  let tBot := (-cy.halfHeight - ro.y) / rd.y
  [(side t1, t1, cy.sideRecord r ro rd t1),
   (side t2, t2, cy.sideRecord r ro rd t2),
   (cap cy.halfHeight tTop, tTop, cy.capRecord r cy.halfHeight tTop),
   (cap (-cy.halfHeight) tBot, tBot, cy.capRecord r (-cy.halfHeight) tBot)]

/-- One iteration of `HittableList::hit`'s loop on the running
`(closest_so_far, hit_any)` state. -/
def listStep (r : Ray) (tMin : ℝ) (st : WithTop ℝ × Option HitRecord)
    (obj : Object) : WithTop ℝ × Option HitRecord :=
  match obj.hit r tMin st.1 with
  | some rec => ((rec.t : WithTop ℝ), some rec)
  | none => st

/-- Invariant of `HittableList::hit`'s loop: while no record is held the
bound is still the caller's `hi` and every processed object misses the full
interval; once a record is held, the bound equals its `t`, which lies in
`[tMin, hi]`, is produced by some processed object on the full interval,
and undercuts every processed object's full-interval hit. -/
def ListInv (r : Ray) (tMin : ℝ) (hi : WithTop ℝ) (processed : List Object)
    (st : WithTop ℝ × Option HitRecord) : Prop :=
  (st.2 = none → st.1 = hi ∧ ∀ o ∈ processed, o.hit r tMin hi = none) ∧
  (∀ rec, st.2 = some rec →
    st.1 = (rec.t : WithTop ℝ) ∧ tMin ≤ rec.t ∧ (rec.t : WithTop ℝ) ≤ hi ∧
    (∃ o ∈ processed, o.hit r tMin hi = some rec) ∧
    (∀ o ∈ processed, ∀ rec', o.hit r tMin hi = some rec' → rec.t ≤ rec'.t))

/-! ### Component evaluation lemmas -/

theorem Vec3.add_def (a b : Vec3) : a + b = ⟨a.x + b.x, a.y + b.y, a.z + b.z⟩ := rfl

theorem Vec3.sub_def (a b : Vec3) : a - b = ⟨a.x - b.x, a.y - b.y, a.z - b.z⟩ := rfl

theorem Vec3.neg_def (a : Vec3) : -a = ⟨-a.x, -a.y, -a.z⟩ := rfl

theorem Vec3.smul_def (a : Vec3) (t : ℝ) : a * t = Vec3.mk (a.x * t) (a.y * t) (a.z * t) := rfl

theorem Vec3.vmul_def (a b : Vec3) : a * b = Vec3.mk (a.x * b.x) (a.y * b.y) (a.z * b.z) := rfl

theorem Vec3.div_def (a : Vec3) (t : ℝ) : a / t = Vec3.mk (a.x / t) (a.y / t) (a.z / t) := rfl

theorem Vec3.dot_def (a b : Vec3) : Vec3.dot a b = a.x * b.x + a.y * b.y + a.z * b.z := rfl

theorem Vec3.dot_neg_right (a b : Vec3) : Vec3.dot a (-b) = -Vec3.dot a b := by
  simp only [Vec3.dot_def, Vec3.neg_def]
  ring

/-! ### `HitRecord::with_face_normal` facts -/

theorem HitRecord.wfn_t (r : Ray) (p out : Vec3) (t : ℝ) (alb : Vec3) (ρ : ℝ) :
    (HitRecord.withFaceNormal r p out t alb ρ).t = t := rfl

theorem HitRecord.wfn_normal (r : Ray) (p out : Vec3) (t : ℝ) (alb : Vec3) (ρ : ℝ) :
    (HitRecord.withFaceNormal r p out t alb ρ).normal =
      if Vec3.dot r.direction out < 0 then out else -out := rfl

theorem HitRecord.wfn_dot_nonpos (r : Ray) (p out : Vec3) (t : ℝ) (alb : Vec3) (ρ : ℝ) :
    Vec3.dot r.direction (HitRecord.withFaceNormal r p out t alb ρ).normal ≤ 0 := by
  rw [HitRecord.wfn_normal]
  split_ifs with h
  · exact le_of_lt h
  · rw [Vec3.dot_neg_right]
    simpa using not_lt.mp h

/-! ### Generic candidate-run lemmas -/

theorem StateOk.bound_le {tMin : ℝ} {hi : WithTop ℝ}
    {st : WithTop ℝ × Option HitRecord} (h : StateOk tMin hi st) : st.1 ≤ hi := by
  rcases hst : st.2 with _ | rec
  · exact le_of_eq (h.1 hst)
  · exact le_of_eq_of_le (h.2 rec hst).1 (h.2 rec hst).2.2

theorem candStep_stateOk {tMin : ℝ} {hi : WithTop ℝ} {v : Bool} {t : ℝ}
    {rec : HitRecord} (Hv : v = true → tMin ≤ t ∧ rec.t = t)
    {st : WithTop ℝ × Option HitRecord} (h : StateOk tMin hi st) :
    StateOk tMin hi (candStep v t rec st) := by
  unfold candStep
  split_ifs with hc
  · obtain ⟨hv, hle⟩ := hc
    obtain ⟨ht, hrt⟩ := Hv hv
    refine ⟨fun h2 => by simp at h2, ?_⟩
    rintro rec₀ h2
    simp only [Option.some.injEq] at h2
    subst h2
    exact ⟨by rw [hrt], by rw [hrt]; exact ht,
      by rw [hrt]; exact le_trans hle h.bound_le⟩
  · exact h

theorem candRun_stateOk {tMin : ℝ} {hi : WithTop ℝ}
    {cs : List (Bool × ℝ × HitRecord)}
    (Hv : ∀ c ∈ cs, c.1 = true → tMin ≤ c.2.1 ∧ c.2.2.t = c.2.1)
    {st : WithTop ℝ × Option HitRecord} (h : StateOk tMin hi st) :
    StateOk tMin hi (candRun cs st) := by
  induction cs generalizing st with
  | nil => exact h
  | cons c cs ih =>
    exact ih (fun c hc => Hv c (List.mem_cons_of_mem _ hc))
      (candStep_stateOk (Hv c (List.mem_cons_self _ _)) h)

theorem candStep_rel {hi' : WithTop ℝ} {v : Bool} {t : ℝ} {rec : HitRecord}
    {a b : WithTop ℝ × Option HitRecord} (h : StateRel hi' a b) :
    StateRel hi' (candStep v t rec a) (candStep v t rec b) := by
  rcases h with h | ⟨ha, hlt⟩
  · subst h; left; rfl
  · subst ha
    unfold candStep StateRel
    by_cases hv : v = true
    · by_cases h1 : (t : WithTop ℝ) ≤ hi'
      · rw [if_pos ⟨hv, h1⟩, if_pos ⟨hv, le_of_lt (lt_of_le_of_lt h1 hlt)⟩]
        left; rfl
      · rw [if_neg (by rintro ⟨_, hh⟩; exact h1 hh)]
        by_cases h2 : (t : WithTop ℝ) ≤ b.1
        · rw [if_pos ⟨hv, h2⟩]
          right
          exact ⟨rfl, lt_of_not_le h1⟩
        · rw [if_neg (by rintro ⟨_, hh⟩; exact h2 hh)]
          right
          exact ⟨rfl, hlt⟩
    · rw [if_neg (by rintro ⟨hh, _⟩; exact hv hh),
        if_neg (by rintro ⟨hh, _⟩; exact hv hh)]
      right
      exact ⟨rfl, hlt⟩

theorem candRun_rel {hi' : WithTop ℝ} (cs : List (Bool × ℝ × HitRecord))
    {a b : WithTop ℝ × Option HitRecord} (h : StateRel hi' a b) :
    StateRel hi' (candRun cs a) (candRun cs b) := by
  induction cs generalizing a b with
  | nil => exact h
  | cons c cs ih => exact ih (candStep_rel h)

theorem stateOk_init (tMin : ℝ) (hi : WithTop ℝ) :
    StateOk tMin hi ((hi, none) : WithTop ℝ × Option HitRecord) :=
  ⟨fun _ => rfl, fun rec h => by simp at h⟩

theorem candRun_bounds {tMin : ℝ} {hi : WithTop ℝ}
    {cs : List (Bool × ℝ × HitRecord)}
    (Hv : ∀ c ∈ cs, c.1 = true → tMin ≤ c.2.1 ∧ c.2.2.t = c.2.1)
    {rec : HitRecord} (h : (candRun cs (hi, none)).2 = some rec) :
    tMin ≤ rec.t ∧ (rec.t : WithTop ℝ) ≤ hi := by
  have hok := candRun_stateOk Hv (stateOk_init tMin hi)
  exact ⟨(hok.2 rec h).2.1, (hok.2 rec h).2.2⟩

theorem stateRel_init {hi' hi : WithTop ℝ} (hle : hi' ≤ hi) :
    StateRel hi' ((hi', none) : WithTop ℝ × Option HitRecord) (hi, none) := by
  rcases eq_or_lt_of_le hle with he | hl
  · left; rw [he]
  · right; exact ⟨rfl, hl⟩

theorem candRun_widen {cs : List (Bool × ℝ × HitRecord)} {hi' hi : WithTop ℝ}
    (hle : hi' ≤ hi) {rec : HitRecord}
    (h : (candRun cs (hi', none)).2 = some rec) :
    (candRun cs (hi, none)).2 = some rec := by
  rcases candRun_rel cs (stateRel_init hle) with he | ⟨ha, _⟩
  · rw [← he]; exact h
  · rw [ha] at h; simp at h

theorem candRun_narrow {tMin : ℝ} {cs : List (Bool × ℝ × HitRecord)}
    {hi' hi : WithTop ℝ} (hle : hi' ≤ hi)
    (Hv : ∀ c ∈ cs, c.1 = true → tMin ≤ c.2.1 ∧ c.2.2.t = c.2.1)
    {rec : HitRecord} (h : (candRun cs (hi, none)).2 = some rec)
    (hr : (rec.t : WithTop ℝ) ≤ hi') :
    (candRun cs (hi', none)).2 = some rec := by
  have hok := candRun_stateOk Hv (stateOk_init tMin hi)
  have hb := (hok.2 rec h).1
  rcases candRun_rel cs (stateRel_init hle) with he | ⟨_, hlt⟩
  · rw [he]; exact h
  · rw [hb] at hlt
    exact absurd (lt_of_lt_of_le hlt hr) (lt_irrefl _)

theorem candRun_preserves (P : HitRecord → Prop)
    {cs : List (Bool × ℝ × HitRecord)} (HP : ∀ c ∈ cs, P c.2.2)
    {st : WithTop ℝ × Option HitRecord}
    (h0 : ∀ rec, st.2 = some rec → P rec) :
    ∀ rec, (candRun cs st).2 = some rec → P rec := by
  induction cs generalizing st with
  | nil => exact h0
  | cons c cs ih =>
    refine ih (fun c hc => HP c (List.mem_cons_of_mem _ hc)) ?_
    intro rec hrec
    dsimp only [candStep] at hrec
    split_ifs at hrec with hc
    · simp only [Option.some.injEq] at hrec
      subst hrec
      exact HP c (List.mem_cons_self _ _)
    · exact h0 rec hrec

/-! ### `Sphere::hit` as a candidate run -/

theorem Vec3.dot_self_nonneg (v : Vec3) : 0 ≤ Vec3.dot v v := by
  rw [Vec3.dot_def]
  have hx := mul_self_nonneg v.x
  have hy := mul_self_nonneg v.y
  have hz := mul_self_nonneg v.z
  linarith

theorem Sphere.record_t (s : Sphere) (r : Ray) (root : ℝ) :
    (s.record r root).t = root := rfl

theorem sphere_roots_le {hb sq a : ℝ} (ha : 0 ≤ a) (hs : 0 ≤ sq) :
    (-hb - sq) / a ≤ (-hb + sq) / a := by
  rcases eq_or_lt_of_le ha with he | hl
  · rw [← he]
    simp
  · exact (div_le_div_right hl).mpr (by linarith)

theorem candRun_two (c1 c2 : Bool × ℝ × HitRecord)
    (st : WithTop ℝ × Option HitRecord) :
    candRun [c1, c2] st =
      candStep c2.1 c2.2.1 c2.2.2 (candStep c1.1 c1.2.1 c1.2.2 st) := rfl

theorem sphere_shape (d r1 r2 tMin : ℝ) (tMax : WithTop ℝ)
    (rec : ℝ → HitRecord) (h12 : r1 ≤ r2) :
    (if d < 0 then none
     else if r1 < tMin ∨ ((r1 : WithTop ℝ) > tMax) then
       if r2 < tMin ∨ ((r2 : WithTop ℝ) > tMax) then none else some (rec r2)
     else some (rec r1)) =
    (candRun [(decide (0 ≤ d ∧ tMin ≤ r1), r1, rec r1),
              (decide (0 ≤ d ∧ tMin ≤ r2), r2, rec r2)] (tMax, none)).2 := by
  rw [candRun_two]
  simp only [candStep, decide_eq_true_eq]
  by_cases hd : d < 0
  · rw [if_pos hd]
    simp [hd.not_le]
  · have h0 : 0 ≤ d := not_lt.mp hd
    rw [if_neg hd]
    by_cases h1 : r1 < tMin ∨ ((r1 : WithTop ℝ) > tMax)
    · have hstep1 : ¬((0 ≤ d ∧ tMin ≤ r1) ∧ ((r1 : WithTop ℝ) ≤ tMax)) := by
        rintro ⟨⟨_, hm⟩, hb⟩
        rcases h1 with h | h
        · exact absurd hm h.not_le
        · exact absurd hb h.not_le
      rw [if_pos h1, if_neg hstep1]
      by_cases h2 : r2 < tMin ∨ ((r2 : WithTop ℝ) > tMax)
      · have hstep2 : ¬((0 ≤ d ∧ tMin ≤ r2) ∧
            ((r2 : WithTop ℝ) ≤ ((tMax, none) : WithTop ℝ × Option HitRecord).1)) := by
          rintro ⟨⟨_, hm⟩, hb⟩
          rcases h2 with h | h
          · exact absurd hm h.not_le
          · exact absurd hb h.not_le
        rw [if_pos h2, if_neg hstep2]
      · push_neg at h2
        rw [if_neg (by rintro (h | h); exacts [absurd h h2.1.not_lt, absurd h h2.2.not_lt]),
          if_pos (show (0 ≤ d ∧ tMin ≤ r2) ∧
            ((r2 : WithTop ℝ) ≤ ((tMax, none) : WithTop ℝ × Option HitRecord).1) from
            ⟨⟨h0, h2.1⟩, h2.2⟩)]
    · push_neg at h1
      rw [if_neg (by rintro (h | h); exacts [absurd h h1.1.not_lt, absurd h h1.2.not_lt]),
        if_pos (show (0 ≤ d ∧ tMin ≤ r1) ∧
          ((r1 : WithTop ℝ) ≤ ((tMax, none) : WithTop ℝ × Option HitRecord).1) from
          ⟨⟨h0, h1.1⟩, h1.2⟩)]
      by_cases h2 : (0 ≤ d ∧ tMin ≤ r2) ∧
          ((r2 : WithTop ℝ) ≤ (((r1 : WithTop ℝ), some (rec r1)) :
            WithTop ℝ × Option HitRecord).1)
      · rw [if_pos h2]
        have : r2 = r1 := le_antisymm (WithTop.coe_le_coe.mp h2.2) h12
        rw [this]
      · rw [if_neg h2]

theorem sphere_hit_eq_candRun (s : Sphere) (r : Ray) (tMin : ℝ)
    (tMax : WithTop ℝ) :
    s.hit r tMin tMax = (candRun (s.cands r tMin) (tMax, none)).2 := by
  have ha : 0 ≤ Vec3.dot r.direction r.direction := Vec3.dot_self_nonneg _
  unfold Sphere.hit Sphere.cands
  exact sphere_shape _ _ _ _ _ _ (sphere_roots_le ha (Real.sqrt_nonneg _))

theorem sphere_cands_valid (s : Sphere) (r : Ray) (tMin : ℝ) :
    ∀ c ∈ s.cands r tMin, c.1 = true → tMin ≤ c.2.1 ∧ c.2.2.t = c.2.1 := by
  intro c hc hv
  simp only [Sphere.cands, List.mem_cons, List.not_mem_nil, or_false] at hc
  rcases hc with hc | hc
  · subst hc
    simp only [decide_eq_true_eq] at hv
    exact ⟨hv.2, Sphere.record_t _ _ _⟩
  · subst hc
    simp only [decide_eq_true_eq] at hv
    exact ⟨hv.2, Sphere.record_t _ _ _⟩

/-! ### `Plane::hit` as a candidate run -/

theorem candRun_one (c : Bool × ℝ × HitRecord) (st : WithTop ℝ × Option HitRecord) :
    candRun [c] st = candStep c.1 c.2.1 c.2.2 st := rfl

theorem plane_shape (dn t tMin : ℝ) (tMax : WithTop ℝ) (rec : HitRecord) :
    (if |dn| < 1e-6 then none
     else if t < tMin ∨ ((t : WithTop ℝ) > tMax) then none
     else some rec) =
    (candRun [(decide (¬|dn| < 1e-6 ∧ tMin ≤ t), t, rec)] (tMax, none)).2 := by
  rw [candRun_one]
  simp only [candStep, decide_eq_true_eq]
  by_cases hp : |dn| < 1e-6
  · rw [if_pos hp, if_neg (by rintro ⟨⟨hnp, _⟩, _⟩; exact hnp hp)]
  · rw [if_neg hp]
    by_cases ht : t < tMin ∨ ((t : WithTop ℝ) > tMax)
    · rw [if_pos ht,
        if_neg (by
          rintro ⟨⟨_, hm⟩, hb⟩
          rcases ht with h | h
          · exact absurd hm h.not_le
          · exact absurd hb h.not_le)]
    · push_neg at ht
      rw [if_neg (by rintro (h | h); exacts [absurd h ht.1.not_lt, absurd h ht.2.not_lt]),
        if_pos (show (¬|dn| < 1e-6 ∧ tMin ≤ t) ∧
          ((t : WithTop ℝ) ≤ ((tMax, none) : WithTop ℝ × Option HitRecord).1) from
          ⟨⟨hp, ht.1⟩, ht.2⟩)]

theorem plane_hit_eq_candRun (pl : Plane) (r : Ray) (tMin : ℝ)
    (tMax : WithTop ℝ) :
    pl.hit r tMin tMax = (candRun (pl.cands r tMin) (tMax, none)).2 := by
  unfold Plane.hit Plane.cands
  exact plane_shape _ _ _ _ _

theorem plane_cands_valid (pl : Plane) (r : Ray) (tMin : ℝ) :
    ∀ c ∈ pl.cands r tMin, c.1 = true → tMin ≤ c.2.1 ∧ c.2.2.t = c.2.1 := by
  intro c hc hv
  simp only [Plane.cands, List.mem_cons, List.not_mem_nil, or_false] at hc
  subst hc
  simp only [decide_eq_true_eq] at hv
  exact ⟨hv.2, HitRecord.wfn_t _ _ _ _ _ _⟩

/-! ### `Cylinder::hit` as a candidate run -/

theorem Cylinder.sideRecord_t (cy : Cylinder) (r : Ray) (ro rd : Vec3) (t : ℝ) :
    (cy.sideRecord r ro rd t).t = t := rfl

theorem Cylinder.capRecord_t (cy : Cylinder) (r : Ray) (yCap t : ℝ) :
    (cy.capRecord r yCap t).t = t := rfl

theorem Cylinder.tryRoot_eq (cy : Cylinder) (r : Ray) (ro rd : Vec3) (tMin : ℝ)
    (st : WithTop ℝ × Option HitRecord) (t : ℝ) :
    cy.tryRoot r ro rd tMin st t =
      candStep (decide (t ≥ tMin ∧ ro.y + t * rd.y ≥ -cy.halfHeight - 1e-9 ∧
        ro.y + t * rd.y ≤ cy.halfHeight + 1e-9)) t (cy.sideRecord r ro rd t) st := by
  unfold Cylinder.tryRoot candStep
  simp only [decide_eq_true_eq]
  by_cases hA : t ≥ tMin
  · by_cases hB : ((t : WithTop ℝ) ≤ st.1)
    · by_cases hC : ro.y + t * rd.y ≥ -cy.halfHeight - 1e-9 ∧
          ro.y + t * rd.y ≤ cy.halfHeight + 1e-9
      · rw [if_pos ⟨hA, hB⟩, if_pos hC, if_pos ⟨⟨hA, hC.1, hC.2⟩, hB⟩]
      · rw [if_pos ⟨hA, hB⟩, if_neg hC,
          if_neg (by rintro ⟨⟨_, h1, h2⟩, _⟩; exact hC ⟨h1, h2⟩)]
    · rw [if_neg (by rintro ⟨_, hb⟩; exact hB hb),
        if_neg (by rintro ⟨_, hb⟩; exact hB hb)]
  · rw [if_neg (by rintro ⟨ha, _⟩; exact hA ha),
      if_neg (by rintro ⟨⟨ha, _⟩, _⟩; exact hA ha)]

theorem Cylinder.checkCap_eq (cy : Cylinder) (yCap : ℝ) (r : Ray) (ro rd : Vec3)
    (tMin : ℝ) (st : WithTop ℝ × Option HitRecord) :
    cy.checkCap yCap r ro rd tMin st =
      candStep (decide (¬|rd.y| < 1e-12 ∧ ¬(yCap - ro.y) / rd.y < tMin ∧
        (ro.x + (yCap - ro.y) / rd.y * rd.x) * (ro.x + (yCap - ro.y) / rd.y * rd.x) +
          (ro.z + (yCap - ro.y) / rd.y * rd.z) * (ro.z + (yCap - ro.y) / rd.y * rd.z) ≤
            cy.radius * cy.radius + 1e-9))
        ((yCap - ro.y) / rd.y) (cy.capRecord r yCap ((yCap - ro.y) / rd.y)) st := by
  unfold Cylinder.checkCap candStep
  simp only [decide_eq_true_eq]
  by_cases hP : |rd.y| < 1e-12
  · rw [if_pos hP, if_neg (by rintro ⟨⟨hnp, _⟩, _⟩; exact hnp hP)]
  · rw [if_neg hP]
    by_cases hm : (yCap - ro.y) / rd.y < tMin
    · rw [if_pos (Or.inl hm), if_neg (by rintro ⟨⟨_, hnm, _⟩, _⟩; exact hnm hm)]
    · by_cases hb : (((yCap - ro.y) / rd.y : ℝ) : WithTop ℝ) > st.1
      · rw [if_pos (Or.inr hb), if_neg (by rintro ⟨_, hle⟩; exact absurd hle hb.not_le)]
      · rw [if_neg (by rintro (h | h); exacts [hm h, hb h])]
        by_cases hD : (ro.x + (yCap - ro.y) / rd.y * rd.x) *
              (ro.x + (yCap - ro.y) / rd.y * rd.x) +
            (ro.z + (yCap - ro.y) / rd.y * rd.z) *
              (ro.z + (yCap - ro.y) / rd.y * rd.z) ≤ cy.radius * cy.radius + 1e-9
        · rw [if_pos hD, if_pos ⟨⟨hP, hm, hD⟩, not_lt.mp hb⟩]
        · rw [if_neg hD, if_neg (by rintro ⟨⟨_, _, hd⟩, _⟩; exact hD hd)]

theorem candRun_four (c1 c2 c3 c4 : Bool × ℝ × HitRecord)
    (st : WithTop ℝ × Option HitRecord) :
    candRun [c1, c2, c3, c4] st =
      candStep c4.1 c4.2.1 c4.2.2 (candStep c3.1 c3.2.1 c3.2.2
        (candStep c2.1 c2.2.1 c2.2.2 (candStep c1.1 c1.2.1 c1.2.2 st))) := rfl

theorem candStep_false (t : ℝ) (rec : HitRecord)
    (st : WithTop ℝ × Option HitRecord) : candStep false t rec st = st := by
  unfold candStep
  simp

theorem candStep_guard (G V : Prop) [Decidable G] [Decidable V] (hG : G)
    (t : ℝ) (rec : HitRecord) (st : WithTop ℝ × Option HitRecord) :
    candStep (decide (G ∧ V)) t rec st = candStep (decide V) t rec st := by
  unfold candStep
  simp only [decide_eq_true_eq]
  exact if_congr (by tauto) rfl rfl

theorem candStep_guard_false (G V : Prop) [Decidable G] [Decidable V] (hG : ¬G)
    (t : ℝ) (rec : HitRecord) (st : WithTop ℝ × Option HitRecord) :
    candStep (decide (G ∧ V)) t rec st = st := by
  unfold candStep
  simp only [decide_eq_true_eq]
  rw [if_neg (by tauto)]

theorem cylinder_hit_eq_candRun (cy : Cylinder) (r : Ray) (tMin : ℝ)
    (tMax : WithTop ℝ) :
    cy.hit r tMin tMax = (candRun (cy.cands r tMin) (tMax, none)).2 := by
  simp only [Cylinder.hit, Cylinder.cands, candRun_four]
  rw [Cylinder.tryRoot_eq, Cylinder.tryRoot_eq, Cylinder.checkCap_eq,
    Cylinder.checkCap_eq]
  split_ifs with hg1 hg2
  · rw [candStep_guard _ _ hg1, candStep_guard _ _ hg1,
      candStep_guard _ _ hg2, candStep_guard _ _ hg2]
  · rw [candStep_guard _ _ hg1, candStep_guard _ _ hg1,
      candStep_guard_false _ _ hg2, candStep_guard_false _ _ hg2]
  · rw [candStep_guard_false _ _ hg1, candStep_guard_false _ _ hg1]

theorem cylinder_cands_valid (cy : Cylinder) (r : Ray) (tMin : ℝ) :
    ∀ c ∈ cy.cands r tMin, c.1 = true → tMin ≤ c.2.1 ∧ c.2.2.t = c.2.1 := by
  intro c hc hv
  simp only [Cylinder.cands, List.mem_cons, List.not_mem_nil, or_false] at hc
  rcases hc with hc | hc | hc | hc <;> subst hc <;>
    simp only [decide_eq_true_eq] at hv
  · exact ⟨hv.2.2.1, Cylinder.sideRecord_t _ _ _ _ _⟩
  · exact ⟨hv.2.2.1, Cylinder.sideRecord_t _ _ _ _ _⟩
  · exact ⟨not_lt.mp hv.2.1, Cylinder.capRecord_t _ _ _ _⟩
  · exact ⟨not_lt.mp hv.2.1, Cylinder.capRecord_t _ _ _ _⟩

/-! ### `Aabb::hit` slab lemmas -/

theorem if_lt_eq_min {α : Type} [LinearOrder α] (x y : α) :
    (if x < y then x else y) = min x y := by
  split_ifs with h
  · exact (min_eq_left h.le).symm
  · exact (min_eq_right (not_lt.mp h)).symm

theorem slabAxis_eq (o d mn mx : ℝ) (nn fn : Vec3) (tmin : ℝ) (hi : WithTop ℝ) :
    slabAxis o d mn mx nn (tmin, hi, fn) =
      if |d| < 1e-12 then
        if o < mn ∨ o > mx then none else some (tmin, hi, fn)
      else
        slabCore tmin
          (if (mn - o) * (1 / d) > (mx - o) * (1 / d) then (mx - o) * (1 / d)
            else (mn - o) * (1 / d))
          (if (mn - o) * (1 / d) > (mx - o) * (1 / d) then (mn - o) * (1 / d)
            else (mx - o) * (1 / d))
          (if (mn - o) * (1 / d) > (mx - o) * (1 / d) then -nn else nn) fn hi := by
  simp only [slabAxis, slabCore]
  split_ifs <;> rfl

theorem slabCore_inv {tmin a b : ℝ} {en fn : Vec3} {hi : WithTop ℝ}
    {out : ℝ × WithTop ℝ × Vec3} (h : slabCore tmin a b en fn hi = some out) :
    tmin ≤ out.1 ∧ out.2.1 ≤ hi ∧ ((out.1 : WithTop ℝ) < out.2.1) := by
  simp only [slabCore, if_lt_eq_min] at h
  split_ifs at h with hmn hg hg
  all_goals try exact Option.noConfusion h
  all_goals obtain rfl := Option.some.inj h
  all_goals refine ⟨?_, min_le_right _ _, not_le.mp (by assumption)⟩
  all_goals first
    | exact le_of_lt (by assumption)
    | exact le_refl _

theorem slabCore_mono {tmin a b : ℝ} {en fn : Vec3} {ta tb : WithTop ℝ}
    (hab : ta ≤ tb) {out : ℝ × WithTop ℝ × Vec3}
    (h : slabCore tmin a b en fn ta = some out) :
    ∃ tb', slabCore tmin a b en fn tb = some (out.1, tb', out.2.2) ∧
      out.2.1 ≤ tb' := by
  simp only [slabCore, if_lt_eq_min] at h ⊢
  have hmono : min (b : WithTop ℝ) ta ≤ min (b : WithTop ℝ) tb :=
    min_le_min (le_refl _) hab
  split_ifs at h with hmn hg hg
  all_goals try exact Option.noConfusion h
  all_goals obtain rfl := Option.some.inj h
  all_goals first
    | (have hmn' : a > tmin := by assumption
       have hg' : ¬(min ((b : ℝ) : WithTop ℝ) ta ≤ ((a : ℝ) : WithTop ℝ)) := by
         assumption
       simp only [if_pos hmn']
       rw [if_neg (not_le.mpr (lt_of_lt_of_le (not_le.mp hg') hmono))]
       exact ⟨min (b : WithTop ℝ) tb, rfl, hmono⟩)
    | (have hmn' : ¬a > tmin := by assumption
       have hg' : ¬(min ((b : ℝ) : WithTop ℝ) ta ≤ ((tmin : ℝ) : WithTop ℝ)) := by
         assumption
       simp only [if_neg hmn']
       rw [if_neg (not_le.mpr (lt_of_lt_of_le (not_le.mp hg') hmono))]
       exact ⟨min (b : WithTop ℝ) tb, rfl, hmono⟩)

theorem slabCore_min {tmin a b : ℝ} {en fn : Vec3} {M tb : WithTop ℝ}
    {out : ℝ × WithTop ℝ × Vec3} (h : slabCore tmin a b en fn tb = some out)
    (hM : (out.1 : WithTop ℝ) < M) :
    slabCore tmin a b en fn (min M tb) = some (out.1, min M out.2.1, out.2.2) := by
  simp only [slabCore, if_lt_eq_min] at h ⊢
  have hmm : min (b : WithTop ℝ) (min M tb) = min M (min (b : WithTop ℝ) tb) :=
    min_left_comm _ _ _
  split_ifs at h with hmn hg hg
  all_goals try exact Option.noConfusion h
  all_goals obtain rfl := Option.some.inj h
  all_goals first
    | (have hmn' : a > tmin := by assumption
       have hg' : ¬(min ((b : ℝ) : WithTop ℝ) tb ≤ ((a : ℝ) : WithTop ℝ)) := by
         assumption
       simp only [if_pos hmn'] at hM ⊢
       rw [hmm, if_neg (not_le.mpr (lt_min hM (not_le.mp hg')))])
    | (have hmn' : ¬a > tmin := by assumption
       have hg' : ¬(min ((b : ℝ) : WithTop ℝ) tb ≤ ((tmin : ℝ) : WithTop ℝ)) := by
         assumption
       simp only [if_neg hmn'] at hM ⊢
       rw [hmm, if_neg (not_le.mpr (lt_min hM (not_le.mp hg')))])

theorem slabAxis_inv {o d mn mx : ℝ} {nn fn : Vec3} {tmin : ℝ}
    {hi : WithTop ℝ} {out : ℝ × WithTop ℝ × Vec3}
    (h : slabAxis o d mn mx nn (tmin, hi, fn) = some out) :
    tmin ≤ out.1 ∧ out.2.1 ≤ hi ∧
      (((out.1 : WithTop ℝ) < out.2.1) ∨ out = (tmin, hi, fn)) := by
  rw [slabAxis_eq] at h
  by_cases hpar : |d| < 1e-12
  · rw [if_pos hpar] at h
    by_cases hout : o < mn ∨ o > mx
    · rw [if_pos hout] at h
      exact Option.noConfusion h
    · rw [if_neg hout] at h
      obtain rfl := Option.some.inj h
      exact ⟨le_refl _, le_refl _, Or.inr rfl⟩
  · rw [if_neg hpar] at h
    obtain ⟨h1, h2, h3⟩ := slabCore_inv h
    exact ⟨h1, h2, Or.inl h3⟩

theorem slabAxis_mono {o d mn mx : ℝ} {nn fn : Vec3} {tmin : ℝ}
    {ta tb : WithTop ℝ} (hab : ta ≤ tb) {out : ℝ × WithTop ℝ × Vec3}
    (h : slabAxis o d mn mx nn (tmin, ta, fn) = some out) :
    ∃ tb', slabAxis o d mn mx nn (tmin, tb, fn) = some (out.1, tb', out.2.2) ∧
      out.2.1 ≤ tb' := by
  rw [slabAxis_eq] at h
  rw [slabAxis_eq]
  by_cases hpar : |d| < 1e-12
  · rw [if_pos hpar] at h ⊢
    by_cases hout : o < mn ∨ o > mx
    · rw [if_pos hout] at h
      exact Option.noConfusion h
    · rw [if_neg hout] at h ⊢
      obtain rfl := Option.some.inj h
      exact ⟨tb, rfl, hab⟩
  · rw [if_neg hpar] at h ⊢
    exact slabCore_mono hab h

theorem slabAxis_min {o d mn mx : ℝ} {nn fn : Vec3} {tmin : ℝ}
    {M tb : WithTop ℝ} {out : ℝ × WithTop ℝ × Vec3}
    (h : slabAxis o d mn mx nn (tmin, tb, fn) = some out)
    (hM : (out.1 : WithTop ℝ) < M) :
    slabAxis o d mn mx nn (tmin, min M tb, fn) =
      some (out.1, min M out.2.1, out.2.2) := by
  rw [slabAxis_eq] at h
  rw [slabAxis_eq]
  by_cases hpar : |d| < 1e-12
  · rw [if_pos hpar] at h ⊢
    by_cases hout : o < mn ∨ o > mx
    · rw [if_pos hout] at h
      exact Option.noConfusion h
    · rw [if_neg hout] at h ⊢
      obtain rfl := Option.some.inj h
      rfl
  · rw [if_neg hpar] at h ⊢
    exact slabCore_min h hM

theorem Aabb.hit_inv {bb : Aabb} {r : Ray} {tMin : ℝ} {tMax : WithTop ℝ}
    {tv : ℝ × Vec3} (hlo : (tMin : WithTop ℝ) ≤ tMax)
    (h : bb.hit r tMin tMax = some tv) :
    tMin ≤ tv.1 ∧ (tv.1 : WithTop ℝ) ≤ tMax := by
  simp only [Aabb.hit] at h
  rcases e1 : slabAxis r.origin.x r.direction.x bb.min.x bb.max.x
      ⟨-1, 0, 0⟩ (tMin, tMax, ⟨0, 0, 0⟩) with _ | s1
  · simp [e1] at h
  obtain ⟨s1a, s1b, s1c⟩ := s1
  rcases e2 : slabAxis r.origin.y r.direction.y bb.min.y bb.max.y
      ⟨0, -1, 0⟩ (s1a, s1b, s1c) with _ | s2
  · simp [e1, e2] at h
  obtain ⟨s2a, s2b, s2c⟩ := s2
  rcases e3 : slabAxis r.origin.z r.direction.z bb.min.z bb.max.z
      ⟨0, 0, -1⟩ (s2a, s2b, s2c) with _ | s3
  · simp [e1, e2, e3] at h
  obtain ⟨s3a, s3b, s3c⟩ := s3
  simp only [e1, e2, e3, Option.some.injEq] at h
  subst h
  obtain ⟨i1a, i1b, i1c⟩ := slabAxis_inv e1
  obtain ⟨i2a, i2b, i2c⟩ := slabAxis_inv e2
  obtain ⟨i3a, i3b, i3c⟩ := slabAxis_inv e3
  refine ⟨le_trans i1a (le_trans i2a i3a), ?_⟩
  rcases i3c with h3 | h3
  · exact le_of_lt (lt_of_lt_of_le h3 (le_trans i3b (le_trans i2b i1b)))
  · simp only [Prod.mk.injEq] at h3
    obtain ⟨h3a, h3b, h3c⟩ := h3
    subst h3a
    subst h3b
    subst h3c
    rcases i2c with h2 | h2
    · exact le_of_lt (lt_of_lt_of_le h2 (le_trans i2b i1b))
    · simp only [Prod.mk.injEq] at h2
      obtain ⟨h2a, h2b, h2c⟩ := h2
      subst h2a
      subst h2b
      subst h2c
      rcases i1c with h1 | h1
      · exact le_of_lt (lt_of_lt_of_le h1 i1b)
      · simp only [Prod.mk.injEq] at h1
        obtain ⟨h1a, h1b, h1c⟩ := h1
        subst h1a
        exact hlo

theorem Aabb.hit_mono {bb : Aabb} {r : Ray} {tMin : ℝ} {ta tb : WithTop ℝ}
    (hab : ta ≤ tb) {tv : ℝ × Vec3} (h : bb.hit r tMin ta = some tv) :
    bb.hit r tMin tb = some tv := by
  simp only [Aabb.hit] at h ⊢
  rcases e1 : slabAxis r.origin.x r.direction.x bb.min.x bb.max.x
      ⟨-1, 0, 0⟩ (tMin, ta, ⟨0, 0, 0⟩) with _ | s1
  · simp [e1] at h
  obtain ⟨s1a, s1b, s1c⟩ := s1
  obtain ⟨t1b, e1b, hm1⟩ := slabAxis_mono hab e1
  rcases e2 : slabAxis r.origin.y r.direction.y bb.min.y bb.max.y
      ⟨0, -1, 0⟩ (s1a, s1b, s1c) with _ | s2
  · simp [e1, e2] at h
  obtain ⟨s2a, s2b, s2c⟩ := s2
  obtain ⟨t2b, e2b, hm2⟩ := slabAxis_mono hm1 e2
  rcases e3 : slabAxis r.origin.z r.direction.z bb.min.z bb.max.z
      ⟨0, 0, -1⟩ (s2a, s2b, s2c) with _ | s3
  · simp [e1, e2, e3] at h
  obtain ⟨s3a, s3b, s3c⟩ := s3
  obtain ⟨t3b, e3b, hm3⟩ := slabAxis_mono hm2 e3
  simp only [e1, e2, e3, Option.some.injEq] at h
  simp only [e1b] at e2b ⊢
  simp only [e2b] at e3b ⊢
  simp only [e3b]
  exact congrArg some h

theorem Aabb.hit_min {bb : Aabb} {r : Ray} {tMin : ℝ} {M tb : WithTop ℝ}
    {tv : ℝ × Vec3} (h : bb.hit r tMin tb = some tv)
    (hM : (tv.1 : WithTop ℝ) < M) (hle : M ≤ tb) :
    bb.hit r tMin M = some tv := by
  simp only [Aabb.hit] at h ⊢
  rcases e1 : slabAxis r.origin.x r.direction.x bb.min.x bb.max.x
      ⟨-1, 0, 0⟩ (tMin, tb, ⟨0, 0, 0⟩) with _ | s1
  · simp [e1] at h
  obtain ⟨s1a, s1b, s1c⟩ := s1
  rcases e2 : slabAxis r.origin.y r.direction.y bb.min.y bb.max.y
      ⟨0, -1, 0⟩ (s1a, s1b, s1c) with _ | s2
  · simp [e1, e2] at h
  obtain ⟨s2a, s2b, s2c⟩ := s2
  rcases e3 : slabAxis r.origin.z r.direction.z bb.min.z bb.max.z
      ⟨0, 0, -1⟩ (s2a, s2b, s2c) with _ | s3
  · simp [e1, e2, e3] at h
  obtain ⟨s3a, s3b, s3c⟩ := s3
  simp only [e1, e2, e3, Option.some.injEq] at h
  subst h
  obtain ⟨i2a, _, _⟩ := slabAxis_inv e2
  obtain ⟨i3a, _, _⟩ := slabAxis_inv e3
  have h3M : ((s3a : ℝ) : WithTop ℝ) < M := hM
  have h2M : ((s2a : ℝ) : WithTop ℝ) < M :=
    lt_of_le_of_lt (WithTop.coe_le_coe.mpr i3a) h3M
  have h1M : ((s1a : ℝ) : WithTop ℝ) < M :=
    lt_of_le_of_lt (WithTop.coe_le_coe.mpr i2a) h2M
  have e1m := slabAxis_min e1 h1M
  have e2m := slabAxis_min e2 h2M
  have e3m := slabAxis_min e3 h3M
  rw [← min_eq_left hle]
  simp only [e1m]
  simp only at e2m e3m
  simp only [e2m, e3m]

/-! ### Interval facts shared by all four primitives' `hit` functions -/

theorem Object.hit_bounds {o : Object} {r : Ray} {tMin : ℝ} {hi : WithTop ℝ}
    {rec : HitRecord} (hlo : (tMin : WithTop ℝ) ≤ hi)
    (h : o.hit r tMin hi = some rec) :
    tMin ≤ rec.t ∧ (rec.t : WithTop ℝ) ≤ hi := by
  cases o with
  | sphere s =>
    simp only [Object.hit] at h
    rw [sphere_hit_eq_candRun] at h
    exact candRun_bounds (sphere_cands_valid s r tMin) h
  | plane p =>
    simp only [Object.hit] at h
    rw [plane_hit_eq_candRun] at h
    exact candRun_bounds (plane_cands_valid p r tMin) h
  | cylinder cy =>
    simp only [Object.hit] at h
    rw [cylinder_hit_eq_candRun] at h
    exact candRun_bounds (cylinder_cands_valid cy r tMin) h
  | cube c =>
    simp only [Object.hit, Cube.hit] at h
    rcases e : c.bounds.hit r tMin hi with _ | tv
    · simp [e] at h
    · simp only [e, Option.some.injEq] at h
      subst h
      obtain ⟨h1, h2⟩ := Aabb.hit_inv hlo e
      exact ⟨by rw [HitRecord.wfn_t]; exact h1, by rw [HitRecord.wfn_t]; exact h2⟩

theorem Object.hit_widen {o : Object} {r : Ray} {tMin : ℝ} {hi' hi : WithTop ℝ}
    (hle : hi' ≤ hi) {rec : HitRecord} (h : o.hit r tMin hi' = some rec) :
    o.hit r tMin hi = some rec := by
  cases o with
  | sphere s =>
    simp only [Object.hit] at h ⊢
    rw [sphere_hit_eq_candRun] at h ⊢
    exact candRun_widen hle h
  | plane p =>
    simp only [Object.hit] at h ⊢
    rw [plane_hit_eq_candRun] at h ⊢
    exact candRun_widen hle h
  | cylinder cy =>
    simp only [Object.hit] at h ⊢
    rw [cylinder_hit_eq_candRun] at h ⊢
    exact candRun_widen hle h
  | cube c =>
    simp only [Object.hit, Cube.hit] at h ⊢
    rcases e : c.bounds.hit r tMin hi' with _ | tv
    · simp [e] at h
    · simp only [e, Option.some.injEq] at h
      simp only [Aabb.hit_mono hle e]
      exact congrArg some h

theorem Object.hit_narrow {o : Object} {r : Ray} {tMin : ℝ} {hi hi' : WithTop ℝ}
    {rec : HitRecord} (h : o.hit r tMin hi = some rec)
    (hlt : (rec.t : WithTop ℝ) < hi') (hle : hi' ≤ hi) :
    o.hit r tMin hi' = some rec := by
  cases o with
  | sphere s =>
    simp only [Object.hit] at h ⊢
    rw [sphere_hit_eq_candRun] at h ⊢
    exact candRun_narrow hle (sphere_cands_valid s r tMin) h hlt.le
  | plane p =>
    simp only [Object.hit] at h ⊢
    rw [plane_hit_eq_candRun] at h ⊢
    exact candRun_narrow hle (plane_cands_valid p r tMin) h hlt.le
  | cylinder cy =>
    simp only [Object.hit] at h ⊢
    rw [cylinder_hit_eq_candRun] at h ⊢
    exact candRun_narrow hle (cylinder_cands_valid cy r tMin) h hlt.le
  | cube c =>
    simp only [Object.hit, Cube.hit] at h ⊢
    rcases e : c.bounds.hit r tMin hi with _ | tv
    · simp [e] at h
    · simp only [e, Option.some.injEq] at h
      subst h
      rw [HitRecord.wfn_t] at hlt
      simp only [Aabb.hit_min e hlt hle]

theorem Sphere.hit_narrow_le {s : Sphere} {r : Ray} {tMin : ℝ}
    {hi hi' : WithTop ℝ} {rec : HitRecord} (h : s.hit r tMin hi = some rec)
    (hr : (rec.t : WithTop ℝ) ≤ hi') (hle : hi' ≤ hi) :
    s.hit r tMin hi' = some rec := by
  rw [sphere_hit_eq_candRun] at h ⊢
  exact candRun_narrow hle (sphere_cands_valid s r tMin) h hr

/-! ### The `HittableList::hit` loop invariant -/

theorem listStep_inv {r : Ray} {tMin : ℝ} {hi : WithTop ℝ}
    (hlo : (tMin : WithTop ℝ) ≤ hi) {processed : List Object}
    {st : WithTop ℝ × Option HitRecord} (obj : Object)
    (h : ListInv r tMin hi processed st) :
    ListInv r tMin hi (processed ++ [obj]) (listStep r tMin st obj) := by
  unfold listStep
  rcases hst : st.2 with _ | rec₀
  · obtain ⟨h1, h2⟩ := h.1 hst
    rw [h1]
    rcases e : obj.hit r tMin hi with _ | rec
    · refine ⟨fun _ => ⟨h1, ?_⟩, ?_⟩
      · intro o ho
        rcases List.mem_append.mp ho with ho | ho
        · exact h2 o ho
        · rw [List.mem_singleton.mp ho]
          exact e
      · intro rec h'
        rw [hst] at h'
        exact Option.noConfusion h'
    · obtain ⟨hb1, hb2⟩ := Object.hit_bounds hlo e
      refine ⟨fun h' => Option.noConfusion h', ?_⟩
      intro rec₁ h'
      obtain rfl := Option.some.inj h'
      refine ⟨rfl, hb1, hb2, ⟨obj, List.mem_append_right _ (List.mem_singleton_self _), e⟩, ?_⟩
      intro o ho rec' he'
      rcases List.mem_append.mp ho with ho | ho
      · rw [h2 o ho] at he'
        exact Option.noConfusion he'
      · rw [List.mem_singleton.mp ho] at he'
        rw [e] at he'
        obtain rfl := Option.some.inj he'
        exact le_refl _
  · obtain ⟨hs1, hb1, hb2, hex, hmin⟩ := h.2 rec₀ hst
    rw [hs1]
    rcases e : obj.hit r tMin ((rec₀.t : ℝ) : WithTop ℝ) with _ | rec
    · refine ⟨?_, ?_⟩
      · intro h'
        rw [hst] at h'
        exact Option.noConfusion h'
      · intro rec h'
        rw [hst] at h'
        obtain rfl := Option.some.inj h'
        refine ⟨hs1, hb1, hb2, ?_, ?_⟩
        · obtain ⟨o, ho, hoe⟩ := hex
          exact ⟨o, List.mem_append_left _ ho, hoe⟩
        · intro o ho rec' he'
          rcases List.mem_append.mp ho with ho | ho
          · exact hmin o ho rec' he'
          · rw [List.mem_singleton.mp ho] at he'
            by_contra hc
            push_neg at hc
            have := Object.hit_narrow he' (WithTop.coe_lt_coe.mpr hc) hb2
            rw [e] at this
            exact Option.noConfusion this
    · have hwide : obj.hit r tMin hi = some rec := Object.hit_widen hb2 e
      obtain ⟨hc1, hc2⟩ := Object.hit_bounds (WithTop.coe_le_coe.mpr hb1) e
      have hle₀ : rec.t ≤ rec₀.t := WithTop.coe_le_coe.mp hc2
      refine ⟨fun h' => Option.noConfusion h', ?_⟩
      intro rec₁ h'
      obtain rfl := Option.some.inj h'
      refine ⟨rfl, hc1, le_trans hc2 hb2,
        ⟨obj, List.mem_append_right _ (List.mem_singleton_self _), hwide⟩, ?_⟩
      intro o ho rec' he'
      rcases List.mem_append.mp ho with ho | ho
      · exact le_trans hle₀ (hmin o ho rec' he')
      · rw [List.mem_singleton.mp ho] at he'
        rw [hwide] at he'
        obtain rfl := Option.some.inj he'
        exact le_refl _

theorem listFold_inv (r : Ray) {tMin : ℝ} {hi : WithTop ℝ}
    (hlo : (tMin : WithTop ℝ) ≤ hi) :
    ∀ (objs processed : List Object) (st : WithTop ℝ × Option HitRecord),
      ListInv r tMin hi processed st →
      ListInv r tMin hi (processed ++ objs) (objs.foldl (listStep r tMin) st) := by
  intro objs
  induction objs with
  | nil =>
    intro processed st h
    simpa using h
  | cons o os ih =>
    intro processed st h
    have h2 := ih (processed ++ [o]) _ (listStep_inv hlo o h)
    rw [List.append_assoc, List.singleton_append] at h2
    exact h2

theorem listInv_init (r : Ray) (tMin : ℝ) (hi : WithTop ℝ) :
    ListInv r tMin hi [] ((hi, none) : WithTop ℝ × Option HitRecord) := by
  refine ⟨fun _ => ⟨rfl, by simp⟩, ?_⟩
  intro rec h
  exact Option.noConfusion h

theorem sphere_hit_bounds {s : Sphere} {r : Ray} {tMin : ℝ} {hi : WithTop ℝ}
    {rec : HitRecord} (h : s.hit r tMin hi = some rec) :
    tMin ≤ rec.t ∧ (rec.t : WithTop ℝ) ≤ hi := by
  rw [sphere_hit_eq_candRun] at h
  exact candRun_bounds (sphere_cands_valid s r tMin) h

/-- Concrete evaluation: the unit sphere at the origin, hit by the ray from
`(-2,0,0)` along `(1,0,0)`, yields the near root `t = 1` with hit point
`(-1,0,0)` and outward-facing normal `(-1,0,0)`. -/
theorem sphereHitEval (alb : Vec3) (ρ tMin : ℝ) (hi : WithTop ℝ)
    (htm : tMin ≤ 1) (hhi : ((1 : ℝ) : WithTop ℝ) ≤ hi) :
    Sphere.hit ⟨⟨0, 0, 0⟩, 1, alb, ρ⟩ ⟨⟨-2, 0, 0⟩, ⟨1, 0, 0⟩⟩ tMin hi =
      some ⟨⟨-1, 0, 0⟩, ⟨-1, 0, 0⟩, 1, alb, ρ⟩ := by
  unfold Sphere.hit Sphere.record HitRecord.withFaceNormal
  simp only [Vec3.sub_def, Vec3.dot_def, Vec3.add_def, Vec3.smul_def,
    Vec3.div_def, Ray.at]
  norm_num [Real.sqrt_one]
  refine ⟨htm, ?_⟩
  rw [← WithTop.coe_one]
  exact hhi

/-! ### Claim theorems -/

/-- C1: for every scene, ray and interval bounds with `t_min ≤ t_max`, when
`HittableList::hit` returns a record, that record is some member's hit on
the full interval and its `t` is minimal: no member has a valid hit with a
smaller `t`; and it returns `none` exactly when every member misses the
full interval. -/
theorem C1_nearest_hit (objs : List Object) (r : Ray) (tMin : ℝ)
    (tMax : WithTop ℝ) (hlo : (tMin : WithTop ℝ) ≤ tMax) :
    (∀ rec, hittableListHit objs r tMin tMax = some rec →
      (∃ o ∈ objs, o.hit r tMin tMax = some rec) ∧
      ∀ o ∈ objs, ∀ rec', o.hit r tMin tMax = some rec' → rec.t ≤ rec'.t) ∧
    (hittableListHit objs r tMin tMax = none ↔
      ∀ o ∈ objs, o.hit r tMin tMax = none) := by
  have hInv := listFold_inv r hlo objs [] (tMax, none)
    (listInv_init r tMin tMax)
  rw [List.nil_append] at hInv
  have heq : hittableListHit objs r tMin tMax =
      (objs.foldl (listStep r tMin) (tMax, none)).2 := rfl
  refine ⟨?_, ?_, ?_⟩
  · intro rec h
    rw [heq] at h
    obtain ⟨_, _, _, hex, hmin⟩ := hInv.2 rec h
    exact ⟨hex, hmin⟩
  · intro h
    rw [heq] at h
    exact (hInv.1 h).2
  · intro hall
    rw [heq]
    rcases hfin : (objs.foldl (listStep r tMin) (tMax, none)).2 with _ | rec
    · rfl
    · obtain ⟨_, _, _, ⟨o, ho, hoe⟩, _⟩ := hInv.2 rec hfin
      rw [hall o ho] at hoe
      exact Option.noConfusion hoe

/-- Witness for C1 at a concrete scene and interval. -/
theorem C1_nearest_hit_witness :
    hittableListHit [] ⟨⟨0, 0, 0⟩, ⟨0, 0, 1⟩⟩ 0.001 ((100 : ℝ) : WithTop ℝ) =
      none := by
  have h := C1_nearest_hit [] ⟨⟨0, 0, 0⟩, ⟨0, 0, 1⟩⟩ 0.001 ((100 : ℝ) : WithTop ℝ)
    (WithTop.coe_le_coe.mpr (by norm_num))
  exact h.2.mpr (by simp)

/-- C2 is refuted on the code: `Sphere::hit` called with `t_min = 1` returns
the root `t = 1`, exactly equal to `t_min`, because the interval checks in
the source reject only `root < t_min || root > t_max` — the comparisons are
non-strict, not the claimed strict open interval. -/
theorem C2_open_interval_counterexample :
    Object.hit (Object.sphere ⟨⟨0, 0, 0⟩, 1, ⟨1, 1, 1⟩, 0⟩)
        ⟨⟨-2, 0, 0⟩, ⟨1, 0, 0⟩⟩ 1 ((10 : ℝ) : WithTop ℝ) =
      some ⟨⟨-1, 0, 0⟩, ⟨-1, 0, 0⟩, 1, ⟨1, 1, 1⟩, 0⟩ ∧
    ¬(1 : ℝ) < (HitRecord.mk ⟨-1, 0, 0⟩ ⟨-1, 0, 0⟩ 1 ⟨1, 1, 1⟩ 0).t := by
  constructor
  · simp only [Object.hit]
    exact sphereHitEval ⟨1, 1, 1⟩ 0 1 ((10 : ℝ) : WithTop ℝ) le_rfl
      (WithTop.coe_le_coe.mpr (by norm_num))
  · exact lt_irrefl 1

/-- C2 (amended): every primitive returns a hit only with `t` in the
closed interval `[t_min, t_max]`; roots exactly equal to an endpoint can be
returned, since the source's interval comparisons are non-strict (for the
cube the upper comparison is strict, so its `t` also satisfies the closed
bound). -/
theorem C2_closed_interval (o : Object) (r : Ray) (tMin : ℝ)
    (tMax : WithTop ℝ) (rec : HitRecord) (hlo : (tMin : WithTop ℝ) ≤ tMax)
    (h : o.hit r tMin tMax = some rec) :
    tMin ≤ rec.t ∧ (rec.t : WithTop ℝ) ≤ tMax :=
  Object.hit_bounds hlo h

/-- Witness for the amended C2 at a concrete sphere hit. -/
theorem C2_closed_interval_witness :
    (0.001 : ℝ) ≤ (1 : ℝ) ∧ (((1 : ℝ)) : WithTop ℝ) ≤ ((10 : ℝ) : WithTop ℝ) :=
  C2_closed_interval (Object.sphere ⟨⟨0, 0, 0⟩, 1, ⟨1, 1, 1⟩, 0⟩)
    ⟨⟨-2, 0, 0⟩, ⟨1, 0, 0⟩⟩ 0.001 ((10 : ℝ) : WithTop ℝ)
    ⟨⟨-1, 0, 0⟩, ⟨-1, 0, 0⟩, 1, ⟨1, 1, 1⟩, 0⟩
    (WithTop.coe_le_coe.mpr (by norm_num))
    (by
      simp only [Object.hit]
      exact sphereHitEval ⟨1, 1, 1⟩ 0 0.001 ((10 : ℝ) : WithTop ℝ)
        (by norm_num) (WithTop.coe_le_coe.mpr (by norm_num)))

/-- C3 is refuted on the code: two identical unit spheres that differ only
in albedo both hit at `t = 1`, yet the aggregate returns the record of the
second-inserted sphere, not the first — the later equal hit passes the
non-strict `root > closest_so_far` test and replaces the record. -/
theorem C3_first_wins_counterexample :
    Object.hit (Object.sphere ⟨⟨0, 0, 0⟩, 1, ⟨1, 0, 0⟩, 0⟩)
        ⟨⟨-2, 0, 0⟩, ⟨1, 0, 0⟩⟩ 0.001 ((100 : ℝ) : WithTop ℝ) =
      some ⟨⟨-1, 0, 0⟩, ⟨-1, 0, 0⟩, 1, ⟨1, 0, 0⟩, 0⟩ ∧
    Object.hit (Object.sphere ⟨⟨0, 0, 0⟩, 1, ⟨0, 1, 0⟩, 0⟩)
        ⟨⟨-2, 0, 0⟩, ⟨1, 0, 0⟩⟩ 0.001 ((100 : ℝ) : WithTop ℝ) =
      some ⟨⟨-1, 0, 0⟩, ⟨-1, 0, 0⟩, 1, ⟨0, 1, 0⟩, 0⟩ ∧
    hittableListHit
        [Object.sphere ⟨⟨0, 0, 0⟩, 1, ⟨1, 0, 0⟩, 0⟩,
         Object.sphere ⟨⟨0, 0, 0⟩, 1, ⟨0, 1, 0⟩, 0⟩]
        ⟨⟨-2, 0, 0⟩, ⟨1, 0, 0⟩⟩ 0.001 ((100 : ℝ) : WithTop ℝ) =
      some ⟨⟨-1, 0, 0⟩, ⟨-1, 0, 0⟩, 1, ⟨0, 1, 0⟩, 0⟩ ∧
    (HitRecord.mk ⟨-1, 0, 0⟩ ⟨-1, 0, 0⟩ 1 ⟨0, 1, 0⟩ 0 ≠
      HitRecord.mk ⟨-1, 0, 0⟩ ⟨-1, 0, 0⟩ 1 ⟨1, 0, 0⟩ 0) := by
  have h1 : Object.hit (Object.sphere ⟨⟨0, 0, 0⟩, 1, ⟨1, 0, 0⟩, 0⟩)
      ⟨⟨-2, 0, 0⟩, ⟨1, 0, 0⟩⟩ 0.001 ((100 : ℝ) : WithTop ℝ) =
      some ⟨⟨-1, 0, 0⟩, ⟨-1, 0, 0⟩, 1, ⟨1, 0, 0⟩, 0⟩ := by
    simp only [Object.hit]
    exact sphereHitEval _ 0 0.001 _ (by norm_num) (WithTop.coe_le_coe.mpr (by norm_num))
  have h2 : Object.hit (Object.sphere ⟨⟨0, 0, 0⟩, 1, ⟨0, 1, 0⟩, 0⟩)
      ⟨⟨-2, 0, 0⟩, ⟨1, 0, 0⟩⟩ 0.001 ((1 : ℝ) : WithTop ℝ) =
      some ⟨⟨-1, 0, 0⟩, ⟨-1, 0, 0⟩, 1, ⟨0, 1, 0⟩, 0⟩ := by
    simp only [Object.hit]
    exact sphereHitEval _ 0 0.001 _ (by norm_num) (WithTop.coe_le_coe.mpr (by norm_num))
  have h2' : Object.hit (Object.sphere ⟨⟨0, 0, 0⟩, 1, ⟨0, 1, 0⟩, 0⟩)
      ⟨⟨-2, 0, 0⟩, ⟨1, 0, 0⟩⟩ 0.001 ((100 : ℝ) : WithTop ℝ) =
      some ⟨⟨-1, 0, 0⟩, ⟨-1, 0, 0⟩, 1, ⟨0, 1, 0⟩, 0⟩ := by
    simp only [Object.hit]
    exact sphereHitEval _ 0 0.001 _ (by norm_num) (WithTop.coe_le_coe.mpr (by norm_num))
  refine ⟨h1, h2', ?_, ?_⟩
  · have heq : hittableListHit
        [Object.sphere ⟨⟨0, 0, 0⟩, 1, ⟨1, 0, 0⟩, 0⟩,
         Object.sphere ⟨⟨0, 0, 0⟩, 1, ⟨0, 1, 0⟩, 0⟩]
        ⟨⟨-2, 0, 0⟩, ⟨1, 0, 0⟩⟩ 0.001 ((100 : ℝ) : WithTop ℝ) =
        (listStep ⟨⟨-2, 0, 0⟩, ⟨1, 0, 0⟩⟩ 0.001
          (listStep ⟨⟨-2, 0, 0⟩, ⟨1, 0, 0⟩⟩ 0.001
            (((100 : ℝ) : WithTop ℝ), none)
            (Object.sphere ⟨⟨0, 0, 0⟩, 1, ⟨1, 0, 0⟩, 0⟩))
          (Object.sphere ⟨⟨0, 0, 0⟩, 1, ⟨0, 1, 0⟩, 0⟩)).2 := rfl
    rw [heq]
    unfold listStep
    rw [h1]
    simp only
    rw [h2]
  · intro hcontra
    have := congrArg HitRecord.albedo hcontra
    simp only at this
    have := congrArg Vec3.x this
    norm_num at this

/-- C3 (amended): when two spheres have valid hits at exactly equal `t`,
the aggregate returns the record of the LAST-inserted one — the later equal
hit passes the non-strict interval test against the narrowed bound and
replaces the record.  (For a cube as the later object the equal hit would
instead be rejected, since the slab test's upper bound is strict.)
Insertion order still never affects the returned `t`. -/
theorem C3_tie_last_wins (s1 s2 : Sphere) (r : Ray) (tMin : ℝ)
    (tMax : WithTop ℝ) (rec1 rec2 : HitRecord)
    (h1 : s1.hit r tMin tMax = some rec1) (h2 : s2.hit r tMin tMax = some rec2)
    (ht : rec1.t = rec2.t) :
    hittableListHit [Object.sphere s1, Object.sphere s2] r tMin tMax =
      some rec2 := by
  have heq : hittableListHit [Object.sphere s1, Object.sphere s2] r tMin tMax =
      (listStep r tMin (listStep r tMin (tMax, none) (Object.sphere s1))
        (Object.sphere s2)).2 := rfl
  rw [heq]
  have hb := sphere_hit_bounds h1
  have h2n : s2.hit r tMin ((rec1.t : ℝ) : WithTop ℝ) = some rec2 :=
    Sphere.hit_narrow_le h2 (WithTop.coe_le_coe.mpr (le_of_eq ht.symm)) hb.2
  unfold listStep
  simp only [Object.hit]
  rw [h1]
  simp only
  rw [h2n]

/-- Witness for the amended C3 at the concrete two-sphere tie. -/
theorem C3_tie_last_wins_witness :
    hittableListHit
        [Object.sphere ⟨⟨0, 0, 0⟩, 1, ⟨1, 0, 0⟩, 0⟩,
         Object.sphere ⟨⟨0, 0, 0⟩, 1, ⟨0, 1, 0⟩, 0⟩]
        ⟨⟨-2, 0, 0⟩, ⟨1, 0, 0⟩⟩ 0.001 ((100 : ℝ) : WithTop ℝ) =
      some ⟨⟨-1, 0, 0⟩, ⟨-1, 0, 0⟩, 1, ⟨0, 1, 0⟩, 0⟩ :=
  C3_tie_last_wins ⟨⟨0, 0, 0⟩, 1, ⟨1, 0, 0⟩, 0⟩ ⟨⟨0, 0, 0⟩, 1, ⟨0, 1, 0⟩, 0⟩
    ⟨⟨-2, 0, 0⟩, ⟨1, 0, 0⟩⟩ 0.001 ((100 : ℝ) : WithTop ℝ)
    ⟨⟨-1, 0, 0⟩, ⟨-1, 0, 0⟩, 1, ⟨1, 0, 0⟩, 0⟩
    ⟨⟨-1, 0, 0⟩, ⟨-1, 0, 0⟩, 1, ⟨0, 1, 0⟩, 0⟩
    (sphereHitEval _ 0 0.001 _ (by norm_num) (WithTop.coe_le_coe.mpr (by norm_num)))
    (sphereHitEval _ 0 0.001 _ (by norm_num) (WithTop.coe_le_coe.mpr (by norm_num)))
    rfl

theorem Object.hit_normal_nonpos {o : Object} {r : Ray} {tMin : ℝ}
    {hi : WithTop ℝ} {rec : HitRecord} (h : o.hit r tMin hi = some rec) :
    Vec3.dot r.direction rec.normal ≤ 0 := by
  cases o with
  | sphere s =>
    simp only [Object.hit] at h
    rw [sphere_hit_eq_candRun] at h
    refine candRun_preserves (fun rec => Vec3.dot r.direction rec.normal ≤ 0)
      ?_ (fun rec h' => Option.noConfusion h') rec h
    intro c hc
    simp only [Sphere.cands, List.mem_cons, List.not_mem_nil, or_false] at hc
    rcases hc with hc | hc <;> subst hc <;>
      exact HitRecord.wfn_dot_nonpos r _ _ _ _ _
  | plane p =>
    simp only [Object.hit] at h
    rw [plane_hit_eq_candRun] at h
    refine candRun_preserves (fun rec => Vec3.dot r.direction rec.normal ≤ 0)
      ?_ (fun rec h' => Option.noConfusion h') rec h
    intro c hc
    simp only [Plane.cands, List.mem_cons, List.not_mem_nil, or_false] at hc
    subst hc
    exact HitRecord.wfn_dot_nonpos r _ _ _ _ _
  | cylinder cy =>
    simp only [Object.hit] at h
    rw [cylinder_hit_eq_candRun] at h
    refine candRun_preserves (fun rec => Vec3.dot r.direction rec.normal ≤ 0)
      ?_ (fun rec h' => Option.noConfusion h') rec h
    intro c hc
    simp only [Cylinder.cands, List.mem_cons, List.not_mem_nil, or_false] at hc
    rcases hc with hc | hc | hc | hc <;> subst hc <;>
      exact HitRecord.wfn_dot_nonpos r _ _ _ _ _
  | cube c =>
    simp only [Object.hit, Cube.hit] at h
    rcases e : c.bounds.hit r tMin hi with _ | tv
    · simp [e] at h
    · simp only [e, Option.some.injEq] at h
      subst h
      exact HitRecord.wfn_dot_nonpos r _ _ _ _ _

/-- C4: `HitRecord::with_face_normal` stores the outward normal exactly
when `dot(direction, outward) < 0` and its negation otherwise, so
`dot(direction, stored normal) ≤ 0` always holds — both for the
constructor itself and for every record any primitive's `hit` returns. -/
theorem C4_front_face (r : Ray) (p outN : Vec3) (t : ℝ) (alb : Vec3) (ρ : ℝ)
    (o : Object) (tMin : ℝ) (tMax : WithTop ℝ) (rec : HitRecord)
    (h : o.hit r tMin tMax = some rec) :
    ((HitRecord.withFaceNormal r p outN t alb ρ).normal =
      if Vec3.dot r.direction outN < 0 then outN else -outN) ∧
    Vec3.dot r.direction (HitRecord.withFaceNormal r p outN t alb ρ).normal ≤ 0 ∧
    Vec3.dot r.direction rec.normal ≤ 0 :=
  ⟨HitRecord.wfn_normal r p outN t alb ρ,
   HitRecord.wfn_dot_nonpos r p outN t alb ρ,
   Object.hit_normal_nonpos h⟩

/-- Witness for C4 at a concrete sphere hit. -/
theorem C4_front_face_witness :
    ((HitRecord.withFaceNormal ⟨⟨-2, 0, 0⟩, ⟨1, 0, 0⟩⟩ ⟨0, 0, 0⟩ ⟨0, 1, 0⟩ 1
        ⟨1, 1, 1⟩ 0).normal =
      if Vec3.dot (Vec3.mk 1 0 0) (Vec3.mk 0 1 0) < 0 then Vec3.mk 0 1 0
        else -(Vec3.mk 0 1 0)) ∧
    Vec3.dot (Vec3.mk 1 0 0) (HitRecord.withFaceNormal ⟨⟨-2, 0, 0⟩, ⟨1, 0, 0⟩⟩
      ⟨0, 0, 0⟩ ⟨0, 1, 0⟩ 1 ⟨1, 1, 1⟩ 0).normal ≤ 0 ∧
    Vec3.dot (Vec3.mk 1 0 0)
      (HitRecord.mk ⟨-1, 0, 0⟩ ⟨-1, 0, 0⟩ 1 ⟨1, 1, 1⟩ 0).normal ≤ 0 :=
  C4_front_face ⟨⟨-2, 0, 0⟩, ⟨1, 0, 0⟩⟩ ⟨0, 0, 0⟩ ⟨0, 1, 0⟩ 1 ⟨1, 1, 1⟩ 0
    (Object.sphere ⟨⟨0, 0, 0⟩, 1, ⟨1, 1, 1⟩, 0⟩) 0.001 ((10 : ℝ) : WithTop ℝ)
    ⟨⟨-1, 0, 0⟩, ⟨-1, 0, 0⟩, 1, ⟨1, 1, 1⟩, 0⟩
    (by
      simp only [Object.hit]
      exact sphereHitEval _ 0 0.001 _ (by norm_num)
        (WithTop.coe_le_coe.mpr (by norm_num)))

/-- C7: `Plane::hit` returns no hit whenever the absolute value of
`dot(ray.direction, plane.normal)` is below `1e-6`, regardless of the
origin and the interval — in particular for every ray direction orthogonal
to the plane's normal. -/
theorem C7_plane_parallel (pl : Plane) (r : Ray) (tMin : ℝ) (tMax : WithTop ℝ)
    (h : |Vec3.dot r.direction pl.normal| < 1e-6) :
    pl.hit r tMin tMax = none := by
  unfold Plane.hit
  rw [if_pos h]

/-- Witness for C7: direction `(1,0,0)` against plane normal `(0,1,0)`. -/
theorem C7_plane_parallel_witness :
    Plane.hit ⟨⟨0, 0, 0⟩, ⟨0, 1, 0⟩, ⟨1, 1, 1⟩, 0⟩ ⟨⟨5, 7, -3⟩, ⟨1, 0, 0⟩⟩
      0.001 ((100 : ℝ) : WithTop ℝ) = none :=
  C7_plane_parallel ⟨⟨0, 0, 0⟩, ⟨0, 1, 0⟩, ⟨1, 1, 1⟩, 0⟩ ⟨⟨5, 7, -3⟩, ⟨1, 0, 0⟩⟩
    0.001 ((100 : ℝ) : WithTop ℝ) (by norm_num [Vec3.dot_def])

/-- C8: `Cube::hit` returns no hit whenever the ray direction is
near-parallel to some axis (absolute component below `1e-12`) and the
origin's coordinate on that axis lies outside the box's `[min, max]` slab. -/
theorem C8_cube_parallel_outside (cb : Cube) (r : Ray) (tMin : ℝ)
    (tMax : WithTop ℝ)
    (h : (|r.direction.x| < 1e-12 ∧
            (r.origin.x < cb.bounds.min.x ∨ r.origin.x > cb.bounds.max.x)) ∨
         (|r.direction.y| < 1e-12 ∧
            (r.origin.y < cb.bounds.min.y ∨ r.origin.y > cb.bounds.max.y)) ∨
         (|r.direction.z| < 1e-12 ∧
            (r.origin.z < cb.bounds.min.z ∨ r.origin.z > cb.bounds.max.z))) :
    cb.hit r tMin tMax = none := by
  simp only [Cube.hit]
  suffices hs : cb.bounds.hit r tMin tMax = none by rw [hs]
  simp only [Aabb.hit]
  rcases h with ⟨hd, ho⟩ | ⟨hd, ho⟩ | ⟨hd, ho⟩
  · rw [slabAxis_eq, if_pos hd, if_pos ho]
  · rcases e1 : slabAxis r.origin.x r.direction.x cb.bounds.min.x cb.bounds.max.x
        ⟨-1, 0, 0⟩ (tMin, tMax, ⟨0, 0, 0⟩) with _ | s1
    · simp [e1]
    · obtain ⟨s1a, s1b, s1c⟩ := s1
      simp only [e1]
      rw [slabAxis_eq, if_pos hd, if_pos ho]
  · rcases e1 : slabAxis r.origin.x r.direction.x cb.bounds.min.x cb.bounds.max.x
        ⟨-1, 0, 0⟩ (tMin, tMax, ⟨0, 0, 0⟩) with _ | s1
    · simp [e1]
    · obtain ⟨s1a, s1b, s1c⟩ := s1
      rcases e2 : slabAxis r.origin.y r.direction.y cb.bounds.min.y cb.bounds.max.y
          ⟨0, -1, 0⟩ (s1a, s1b, s1c) with _ | s2
      · simp [e1, e2]
      · obtain ⟨s2a, s2b, s2c⟩ := s2
        simp only [e1, e2]
        rw [slabAxis_eq, if_pos hd, if_pos ho]

/-- Witness for C8: a unit cube `[0,1]³`, a ray whose origin has `x = 2`
outside the x-slab and whose direction has zero x-component. -/
theorem C8_cube_parallel_outside_witness :
    Cube.hit ⟨⟨⟨0, 0, 0⟩, ⟨1, 1, 1⟩⟩, ⟨1, 1, 1⟩, 0⟩
      ⟨⟨2, 0.5, 0.5⟩, ⟨0, 0, 1⟩⟩ 0.001 ((100 : ℝ) : WithTop ℝ) = none :=
  C8_cube_parallel_outside ⟨⟨⟨0, 0, 0⟩, ⟨1, 1, 1⟩⟩, ⟨1, 1, 1⟩, 0⟩
    ⟨⟨2, 0.5, 0.5⟩, ⟨0, 0, 1⟩⟩ 0.001 ((100 : ℝ) : WithTop ℝ)
    (Or.inl (by norm_num))

/-- C9: `Vec3::unit` leaves a vector of exactly zero length unchanged — and
such a vector is necessarily the zero vector — while a vector of nonzero
length is divided by its length. -/
theorem C9_unit_zero_guard (v : Vec3) :
    (v.length = 0 → v.unit = v ∧ v = ⟨0, 0, 0⟩) ∧
    (v.length ≠ 0 → v.unit = v / v.length) := by
  constructor
  · intro h0
    refine ⟨by unfold Vec3.unit; rw [if_pos h0], ?_⟩
    have hsq : v.lengthSquared ≤ 0 := Real.sqrt_eq_zero'.mp h0
    have hx := mul_self_nonneg v.x
    have hy := mul_self_nonneg v.y
    have hz := mul_self_nonneg v.z
    unfold Vec3.lengthSquared at hsq
    have hx0 : v.x = 0 := by
      have : v.x * v.x = 0 := le_antisymm (by linarith) hx
      exact mul_self_eq_zero.mp this
    have hy0 : v.y = 0 := by
      have : v.y * v.y = 0 := le_antisymm (by linarith) hy
      exact mul_self_eq_zero.mp this
    have hz0 : v.z = 0 := by
      have : v.z * v.z = 0 := le_antisymm (by linarith) hz
      exact mul_self_eq_zero.mp this
    cases v
    simp_all
  · intro hne
    unfold Vec3.unit
    rw [if_neg hne]

/-- Witness for C9 at the zero vector and at `(3,4,0)` of length `5`. -/
theorem C9_unit_zero_guard_witness :
    (Vec3.unit ⟨0, 0, 0⟩ = ⟨0, 0, 0⟩) ∧
    (Vec3.unit ⟨3, 4, 0⟩ = Vec3.mk 3 4 0 / (5 : ℝ)) := by
  have hlen0 : (Vec3.mk 0 0 0).length = 0 := by
    unfold Vec3.length Vec3.lengthSquared
    norm_num
  have hlen5 : (Vec3.mk 3 4 0).length = 5 := by
    unfold Vec3.length Vec3.lengthSquared
    rw [show (3 : ℝ) * 3 + 4 * 4 + 0 * 0 = 5 ^ 2 by norm_num]
    exact Real.sqrt_sq (by norm_num)
  constructor
  · exact ((C9_unit_zero_guard ⟨0, 0, 0⟩).1 hlen0).1
  · have := (C9_unit_zero_guard ⟨3, 4, 0⟩).2 (by rw [hlen5]; norm_num)
    rw [hlen5] at this
    exact this

/-- C6: `ray_color` returns the zero color whenever the depth budget is
exhausted (`depth ≤ 0`), before querying the scene; recursion always
decreases the depth by exactly one, so the function is total. -/
theorem C6_depth_termination (r : Ray) (world : List Object)
    (light : PointLight) (depth : ℤ) (h : depth ≤ 0) :
    rayColor r world light depth = ⟨0, 0, 0⟩ := by
  rw [rayColor]
  rw [dif_pos h]

/-- Witness for C6: depth `0` yields the zero color. -/
theorem C6_depth_termination_witness :
    rayColor ⟨⟨0, 0, 0⟩, ⟨0, 0, 1⟩⟩ [] ⟨⟨5, 5, -2⟩, ⟨1, 1, 1⟩⟩ 0 = ⟨0, 0, 0⟩ :=
  C6_depth_termination ⟨⟨0, 0, 0⟩, ⟨0, 0, 1⟩⟩ [] ⟨⟨5, 5, -2⟩, ⟨1, 1, 1⟩⟩ 0 le_rfl

/-- Concrete evaluation: a one-plane scene (floor plane through the origin
with normal `(0,1,0)`) hit from above by the straight-down ray from
`(0,1,0)` yields `t = 1` at the origin with the upward normal. -/
theorem planeSceneEval (alb : Vec3) (ρ : ℝ) :
    hittableListHit [Object.plane ⟨⟨0, 0, 0⟩, ⟨0, 1, 0⟩, alb, ρ⟩]
        ⟨⟨0, 1, 0⟩, ⟨0, -1, 0⟩⟩ 0.001 ⊤ =
      some ⟨⟨0, 0, 0⟩, ⟨0, 1, 0⟩, 1, alb, ρ⟩ := by
  have hp : Plane.hit ⟨⟨0, 0, 0⟩, ⟨0, 1, 0⟩, alb, ρ⟩ ⟨⟨0, 1, 0⟩, ⟨0, -1, 0⟩⟩
      0.001 (⊤ : WithTop ℝ) = some ⟨⟨0, 0, 0⟩, ⟨0, 1, 0⟩, 1, alb, ρ⟩ := by
    unfold Plane.hit HitRecord.withFaceNormal
    simp only [Vec3.dot_def, Vec3.sub_def, Vec3.add_def, Vec3.smul_def, Ray.at]
    norm_num [not_top_lt]
  have heq : hittableListHit [Object.plane ⟨⟨0, 0, 0⟩, ⟨0, 1, 0⟩, alb, ρ⟩]
      ⟨⟨0, 1, 0⟩, ⟨0, -1, 0⟩⟩ 0.001 ⊤ =
      (listStep ⟨⟨0, 1, 0⟩, ⟨0, -1, 0⟩⟩ 0.001 ((⊤ : WithTop ℝ), none)
        (Object.plane ⟨⟨0, 0, 0⟩, ⟨0, 1, 0⟩, alb, ρ⟩)).2 := rfl
  rw [heq]
  unfold listStep
  simp only [Object.hit]
  rw [hp]

/-- C5: at depth at least 1, a hit with reflectivity in `(0,1]` yields
exactly the blend `local*(1-r) + reflected*r`, where `reflected` is the
recursive trace of the biased mirror ray at `depth - 1`; a hit with
reflectivity `0` yields the local shadow-tested Lambert color unchanged,
with no recursive trace. -/
theorem C5_reflection_blend (r : Ray) (world : List Object)
    (light : PointLight) (depth : ℤ) (rec : HitRecord)
    (hhit : hittableListHit world r 0.001 ⊤ = some rec) (hd : 1 ≤ depth) :
    (0 < rec.reflectivity → rec.reflectivity ≤ 1 →
      rayColor r world light depth =
        shadeLambertWithShadow rec.albedo rec.normal rec.p light world *
            (1 - rec.reflectivity) +
          rayColor ⟨rec.p + rec.normal * (1e-4 : ℝ),
              (reflect r.direction.unit rec.normal).unit⟩ world light
            (depth - 1) * rec.reflectivity) ∧
    (rec.reflectivity = 0 →
      rayColor r world light depth =
        shadeLambertWithShadow rec.albedo rec.normal rec.p light world) := by
  have hd0 : ¬depth ≤ 0 := by omega
  constructor
  · intro hpos hle1
    rw [rayColor, dif_neg hd0]
    simp only [hhit]
    have hclamp : min (max rec.reflectivity 0) 1 = rec.reflectivity := by
      rw [max_eq_left hpos.le, min_eq_left hle1]
    rw [hclamp, if_pos hpos]
  · intro h0
    rw [rayColor, dif_neg hd0]
    simp only [hhit]
    rw [h0]
    norm_num

/-- Witness for C5 on a one-plane scene with reflectivity `1/2` at depth 5. -/
theorem C5_reflection_blend_witness :
    ((0 : ℝ) < (1 / 2 : ℝ) → (1 / 2 : ℝ) ≤ 1 →
      rayColor ⟨⟨0, 1, 0⟩, ⟨0, -1, 0⟩⟩
          [Object.plane ⟨⟨0, 0, 0⟩, ⟨0, 1, 0⟩, ⟨0.5, 0.5, 0.5⟩, 1 / 2⟩]
          ⟨⟨5, 5, -2⟩, ⟨1, 1, 1⟩⟩ 5 =
        shadeLambertWithShadow ⟨0.5, 0.5, 0.5⟩ ⟨0, 1, 0⟩ ⟨0, 0, 0⟩
            ⟨⟨5, 5, -2⟩, ⟨1, 1, 1⟩⟩
            [Object.plane ⟨⟨0, 0, 0⟩, ⟨0, 1, 0⟩, ⟨0.5, 0.5, 0.5⟩, 1 / 2⟩] *
            (1 - (1 / 2 : ℝ)) +
          rayColor ⟨Vec3.mk 0 0 0 + Vec3.mk 0 1 0 * (1e-4 : ℝ),
              (reflect (Vec3.unit ⟨0, -1, 0⟩) ⟨0, 1, 0⟩).unit⟩
            [Object.plane ⟨⟨0, 0, 0⟩, ⟨0, 1, 0⟩, ⟨0.5, 0.5, 0.5⟩, 1 / 2⟩]
            ⟨⟨5, 5, -2⟩, ⟨1, 1, 1⟩⟩ (5 - 1) * (1 / 2 : ℝ)) ∧
    ((1 / 2 : ℝ) = 0 →
      rayColor ⟨⟨0, 1, 0⟩, ⟨0, -1, 0⟩⟩
          [Object.plane ⟨⟨0, 0, 0⟩, ⟨0, 1, 0⟩, ⟨0.5, 0.5, 0.5⟩, 1 / 2⟩]
          ⟨⟨5, 5, -2⟩, ⟨1, 1, 1⟩⟩ 5 =
        shadeLambertWithShadow ⟨0.5, 0.5, 0.5⟩ ⟨0, 1, 0⟩ ⟨0, 0, 0⟩
          ⟨⟨5, 5, -2⟩, ⟨1, 1, 1⟩⟩
          [Object.plane ⟨⟨0, 0, 0⟩, ⟨0, 1, 0⟩, ⟨0.5, 0.5, 0.5⟩, 1 / 2⟩]) :=
  C5_reflection_blend ⟨⟨0, 1, 0⟩, ⟨0, -1, 0⟩⟩
    [Object.plane ⟨⟨0, 0, 0⟩, ⟨0, 1, 0⟩, ⟨0.5, 0.5, 0.5⟩, 1 / 2⟩]
    ⟨⟨5, 5, -2⟩, ⟨1, 1, 1⟩⟩ 5 ⟨⟨0, 0, 0⟩, ⟨0, 1, 0⟩, 1, ⟨0.5, 0.5, 0.5⟩, 1 / 2⟩
    (planeSceneEval ⟨0.5, 0.5, 0.5⟩ (1 / 2)) (by norm_num)

/-- C10: `ray_color` blends with the clamped coefficient
`clamp(reflectivity, 0, 1)`: the coefficient always lies in `[0,1]` (so the
result is a convex combination), a non-positive reflectivity triggers no
recursive trace and returns the local color, and a positive clamped
coefficient yields exactly the blend with that coefficient. -/
theorem C10_reflectivity_clamp (r : Ray) (world : List Object)
    (light : PointLight) (depth : ℤ) (rec : HitRecord)
    (hhit : hittableListHit world r 0.001 ⊤ = some rec) (hd : 1 ≤ depth) :
    (0 ≤ min (max rec.reflectivity 0) 1 ∧ min (max rec.reflectivity 0) 1 ≤ 1) ∧
    (rec.reflectivity ≤ 0 →
      rayColor r world light depth =
        shadeLambertWithShadow rec.albedo rec.normal rec.p light world) ∧
    (0 < min (max rec.reflectivity 0) 1 →
      rayColor r world light depth =
        shadeLambertWithShadow rec.albedo rec.normal rec.p light world *
            (1 - min (max rec.reflectivity 0) 1) +
          rayColor ⟨rec.p + rec.normal * (1e-4 : ℝ),
              (reflect r.direction.unit rec.normal).unit⟩ world light
            (depth - 1) * min (max rec.reflectivity 0) 1) := by
  have hd0 : ¬depth ≤ 0 := by omega
  refine ⟨⟨le_min (le_max_right _ _) zero_le_one, min_le_right _ _⟩, ?_, ?_⟩
  · intro hle
    rw [rayColor, dif_neg hd0]
    simp only [hhit]
    have hc0 : min (max rec.reflectivity 0) 1 = 0 := by
      rw [max_eq_right hle, min_eq_left zero_le_one]
    rw [hc0, if_neg (lt_irrefl 0)]
  · intro hpos
    rw [rayColor, dif_neg hd0]
    simp only [hhit]
    rw [if_pos hpos]

/-- Witness for C10 on a one-plane scene with out-of-range reflectivity 3. -/
theorem C10_reflectivity_clamp_witness :
    (0 ≤ min (max (3 : ℝ) 0) 1 ∧ min (max (3 : ℝ) 0) 1 ≤ 1) ∧
    ((3 : ℝ) ≤ 0 →
      rayColor ⟨⟨0, 1, 0⟩, ⟨0, -1, 0⟩⟩
          [Object.plane ⟨⟨0, 0, 0⟩, ⟨0, 1, 0⟩, ⟨1, 0, 0⟩, 3⟩]
          ⟨⟨5, 5, -2⟩, ⟨1, 1, 1⟩⟩ 5 =
        shadeLambertWithShadow ⟨1, 0, 0⟩ ⟨0, 1, 0⟩ ⟨0, 0, 0⟩
          ⟨⟨5, 5, -2⟩, ⟨1, 1, 1⟩⟩
          [Object.plane ⟨⟨0, 0, 0⟩, ⟨0, 1, 0⟩, ⟨1, 0, 0⟩, 3⟩]) ∧
    (0 < min (max (3 : ℝ) 0) 1 →
      rayColor ⟨⟨0, 1, 0⟩, ⟨0, -1, 0⟩⟩
          [Object.plane ⟨⟨0, 0, 0⟩, ⟨0, 1, 0⟩, ⟨1, 0, 0⟩, 3⟩]
          ⟨⟨5, 5, -2⟩, ⟨1, 1, 1⟩⟩ 5 =
        shadeLambertWithShadow ⟨1, 0, 0⟩ ⟨0, 1, 0⟩ ⟨0, 0, 0⟩
            ⟨⟨5, 5, -2⟩, ⟨1, 1, 1⟩⟩
            [Object.plane ⟨⟨0, 0, 0⟩, ⟨0, 1, 0⟩, ⟨1, 0, 0⟩, 3⟩] *
            (1 - min (max (3 : ℝ) 0) 1) +
          rayColor ⟨Vec3.mk 0 0 0 + Vec3.mk 0 1 0 * (1e-4 : ℝ),
              (reflect (Vec3.unit ⟨0, -1, 0⟩) ⟨0, 1, 0⟩).unit⟩
            [Object.plane ⟨⟨0, 0, 0⟩, ⟨0, 1, 0⟩, ⟨1, 0, 0⟩, 3⟩]
            ⟨⟨5, 5, -2⟩, ⟨1, 1, 1⟩⟩ (5 - 1) * min (max (3 : ℝ) 0) 1) :=
  C10_reflectivity_clamp ⟨⟨0, 1, 0⟩, ⟨0, -1, 0⟩⟩
    [Object.plane ⟨⟨0, 0, 0⟩, ⟨0, 1, 0⟩, ⟨1, 0, 0⟩, 3⟩]
    ⟨⟨5, 5, -2⟩, ⟨1, 1, 1⟩⟩ 5 ⟨⟨0, 0, 0⟩, ⟨0, 1, 0⟩, 1, ⟨1, 0, 0⟩, 3⟩
    (planeSceneEval ⟨1, 0, 0⟩ 3) (by norm_num)

end Raytracer
